import Mathlib

/-!
Verification development for the dynamic app-behavior analysis engine:
the `AppWorker` exploration engine (`workers/worker_definitions/app_worker_full.py`)
and the emulator device controller (`providers/core/emulator_env.py`).

Python strings are modelled as `List Char`; Python dicts produced by
`json.loads` and the worker's step-record dictionaries are modelled by the
`JVal` type below.  Stateful code is modelled by explicit state passing; the
outcomes of external I/O (HTTP calls to the providers service, LLM responses,
adb results) are parameters of the embedded functions.  A Python exception
that escapes a function is modelled by `Except.error` carrying the exception
text; an error *dictionary* (`{"status": "error", ...}`) is an ordinary value.
-/

/-- Characters of a string literal, the `List Char` view used throughout. -/
def chars (s : String) : List Char := s.data

/-- Python `str.strip()`: drop leading and trailing whitespace. -/
def pyStrip (s : List Char) : List Char :=
  ((s.dropWhile Char.isWhitespace).reverse.dropWhile Char.isWhitespace).reverse

/-- Python `str.lower()` (ASCII view, which is all the worker compares). -/
def toLowerL (s : List Char) : List Char := s.map Char.toLower

/-- Lowest index at which `m` occurs as a contiguous block of the haystack,
    as Python `str.find` computes it (`none` when absent). -/
def findSub (m : List Char) : List Char → Option Nat
  | [] => if m = [] then some 0 else none
  | c :: rest =>
    if m.isPrefixOf (c :: rest) then some 0 else (findSub m rest).map (· + 1)

/-- Python `needle in haystack` on strings: contiguous-substring test. -/
def containsSub (hay m : List Char) : Bool := (findSub m hay).isSome

/-- Decimal digits of a digit string. -/
def digitsToNat (ds : List Char) : Nat :=
  ds.foldl (fun a c => a * 10 + (c.toNat - 48)) 0

/-- Decimal rendering of a natural number. -/
def natChars (n : Nat) : List Char := Nat.toDigits 10 n

/-- Decimal rendering of an integer. -/
def intChars : Int → List Char
  | .ofNat n => natChars n
  | .negSucc n => '-' :: natChars (n + 1)

/-- Python `int(s)`: strip whitespace, optional sign, decimal digits;
    `none` models the `ValueError` that `int` raises otherwise. -/
def pyInt? (s : List Char) : Option Int :=
  let t := pyStrip s
  let core : List Char → Option Nat := fun ds =>
    if ds ≠ [] ∧ ds.all Char.isDigit then some (digitsToNat ds) else none
  match t with
  | '+' :: ds => (core ds).map (fun n => (n : Int))
  | '-' :: ds => (core ds).map (fun n => -(n : Int))
  | ds => (core ds).map (fun n => (n : Int))

/-- Python `s.split(sep)` for a one-character separator. -/
def splitOnChar (sep : Char) (s : List Char) : List (List Char) :=
  s.splitOn sep

/-!
## JSON values and a model of `json.loads`

Numbers are kept unnormalized as `mant * 10 ^ exp10`, which the kernel can
evaluate; `JNum.toRat` recovers the rational value for analysis statements.
The model covers the RFC JSON grammar that `json.loads` accepts (it omits
Python's nonstandard `NaN`/`Infinity` extension, which no claim exercises).
Duplicate object keys collapse to the last occurrence, kept at the first
occurrence's position, exactly as a Python dict built by `json.loads` does.
-/

/-- Unnormalized decimal number: the value `mant * 10 ^ exp10`. -/
structure JNum where
  mant : Int
  exp10 : Int
deriving DecidableEq, Repr

/-- Rational value of a `JNum`. -/
def JNum.toRat (n : JNum) : ℚ := (n.mant : ℚ) * (10 : ℚ) ^ n.exp10

/-- Parsed JSON value, the model of what `json.loads` returns. -/
inductive JVal where
  | null
  | bool (b : Bool)
  | num (n : JNum)
  | str (s : List Char)
  | arr (xs : List JVal)
  | obj (fields : List (List Char × JVal))
deriving Repr

/-- Whether a `JVal` is a JSON object (a Python dict). -/
def JVal.isObj : JVal → Bool
  | .obj _ => true
  | _ => false

/-- Key lookup on a JSON object (`none` for a missing key or a non-dict). -/
def jget (v : JVal) (k : List Char) : Option JVal :=
  match v with
  | .obj fs => (fs.find? (fun p => p.1 == k)).map (·.2)
  | _ => none

/-- Insert into an assoc list with Python-dict semantics: an existing key is
    overwritten in place, a new key is appended. -/
def dictInsert (fs : List (List Char × JVal)) (k : List Char) (v : JVal) :
    List (List Char × JVal) :=
  match fs with
  | [] => [(k, v)]
  | (k', v') :: rest =>
    if k' == k then (k', v) :: rest else (k', v') :: dictInsert rest k v

/-- JSON whitespace skipping (space, tab, newline, carriage return). -/
def skipWs (s : List Char) : List Char :=
  s.dropWhile (fun c => c = ' ' || c = '\t' || c = '\n' || c = '\r')

/-- Value of a hexadecimal digit. -/
def hexVal? (c : Char) : Option Nat :=
  if c.isDigit then some (c.toNat - 48)
  else if 'a' ≤ c ∧ c ≤ 'f' then some (c.toNat - 87)
  else if 'A' ≤ c ∧ c ≤ 'F' then some (c.toNat - 55)
  else none

/-- JSON string body parser: consumes up to and including the closing quote,
    decoding escapes; `none` on a malformed literal.  Surrogate-pair
    recombination of `\uXXXX` escapes is not modelled. -/
def parseJStr (fuel : Nat) (s : List Char) : Option (List Char × List Char) :=
  match fuel, s with
  | 0, _ => none
  | _, [] => none
  | f + 1, c :: rest =>
    if c = '"' then some ([], rest)
    else if c = '\\' then
      match rest with
      | [] => none
      | e :: rest2 =>
        let cont := fun (ch : Char) (r : List Char) =>
          (parseJStr f r).map (fun pr => (ch :: pr.1, pr.2))
        if e = '"' then cont '"' rest2
        else if e = '\\' then cont '\\' rest2
        else if e = '/' then cont '/' rest2
        else if e = 'b' then cont (Char.ofNat 8) rest2
        else if e = 'f' then cont (Char.ofNat 12) rest2
        else if e = 'n' then cont '\n' rest2
        else if e = 'r' then cont '\r' rest2
        else if e = 't' then cont '\t' rest2
        else if e = 'u' then
          match rest2 with
          | h1 :: h2 :: h3 :: h4 :: rest3 =>
            match hexVal? h1, hexVal? h2, hexVal? h3, hexVal? h4 with
            | some a, some b, some c2, some d =>
              cont (Char.ofNat (((a * 16 + b) * 16 + c2) * 16 + d)) rest3
            | _, _, _, _ => none
          | _ => none
        else none
    else if c.toNat < 32 then none
    else (parseJStr f rest).map (fun pr => (c :: pr.1, pr.2))

/-- Longest leading run of decimal digits, with the remainder. -/
def takeDigits (s : List Char) : List Char × List Char :=
  (s.takeWhile Char.isDigit, s.dropWhile Char.isDigit)

/-- JSON number parser (RFC grammar: optional minus, integer part without
    leading zeros, optional fraction, optional exponent). -/
def parseJNum (s : List Char) : Option (JNum × List Char) :=
  let (neg, s1) := match s with
    | '-' :: r => (true, r)
    | _ => (false, s)
  let (ip, s2) := takeDigits s1
  if ip = [] then none
  else if ip.length > 1 ∧ ip.headD '0' = '0' then none
  else
    let (fp, s3) := match s2 with
      | '.' :: r =>
        let (ds, r') := takeDigits r
        (some ds, r')
      | _ => (none, s2)
    match fp with
    | some [] => none
    | _ =>
      let fdigits := fp.getD []
      let (eo, s4) := match s3 with
        | 'e' :: r => (some r, r)
        | 'E' :: r => (some r, r)
        | _ => (none, s3)
      let finish := fun (expVal : Int) (rest : List Char) =>
        let m : Int := digitsToNat (ip ++ fdigits)
        let m := if neg then -m else m
        some (⟨m, expVal - fdigits.length⟩, rest)
      match eo with
      | none => finish 0 s4
      | some r =>
        let (esign, r1) := match r with
          | '+' :: t => ((1 : Int), t)
          | '-' :: t => ((-1 : Int), t)
          | _ => ((1 : Int), r)
        let (eds, r2) := takeDigits r1
        if eds = [] then none
        else finish (esign * digitsToNat eds) r2

mutual

/-- JSON value parser, the model of `json.loads`' grammar.  Consumes leading
    whitespace, returns the value and the unconsumed remainder. -/
def parseJVal (fuel : Nat) (s : List Char) : Option (JVal × List Char) :=
  match fuel with
  | 0 => none
  | f + 1 =>
    let s := skipWs s
    match s with
    | [] => none
    | c :: rest =>
      if c = '"' then
        (parseJStr (rest.length + 1) rest).map (fun pr => (.str pr.1, pr.2))
      else if c = '{' then parseJMembers f rest
      else if c = '[' then parseJItems f rest
      else if c = 't' then
        if (chars "rue").isPrefixOf rest then some (.bool true, rest.drop 3) else none
      else if c = 'f' then
        if (chars "alse").isPrefixOf rest then some (.bool false, rest.drop 4) else none
      else if c = 'n' then
        if (chars "ull").isPrefixOf rest then some (.null, rest.drop 3) else none
      else
        (parseJNum s).map (fun pr => (.num pr.1, pr.2))

/-- Object parser, after the opening brace: members or an immediate close. -/
def parseJMembers (fuel : Nat) (s : List Char) : Option (JVal × List Char) :=
  match fuel with
  | 0 => none
  | f + 1 =>
    let s1 := skipWs s
    match s1 with
    | '}' :: r => some (.obj [], r)
    | _ => parseJMemberList f s1 []

/-- Member list parser: `"key" : value` pairs separated by commas. -/
def parseJMemberList (fuel : Nat) (s : List Char)
    (acc : List (List Char × JVal)) : Option (JVal × List Char) :=
  match fuel with
  | 0 => none
  | f + 1 =>
    match skipWs s with
    | '"' :: r =>
      match parseJStr (r.length + 1) r with
      | none => none
      | some (key, r1) =>
        match skipWs r1 with
        | ':' :: r2 =>
          match parseJVal f r2 with
          | none => none
          | some (v, r3) =>
            let acc' := dictInsert acc key v
            match skipWs r3 with
            | ',' :: r4 => parseJMemberList f r4 acc'
            | '}' :: r4 => some (.obj acc', r4)
            | _ => none
        | _ => none
    | _ => none

/-- Array item parser, after the opening bracket. -/
def parseJItems (fuel : Nat) (s : List Char) : Option (JVal × List Char) :=
  match fuel with
  | 0 => none
  | f + 1 =>
    match skipWs s with
    | ']' :: r => some (.arr [], r)
    | s1 => parseJItemList f s1 []

/-- Array element parser: values separated by commas. -/
def parseJItemList (fuel : Nat) (s : List Char) (acc : List JVal) :
    Option (JVal × List Char) :=
  match fuel with
  | 0 => none
  | f + 1 =>
    match parseJVal f s with
    | none => none
    | some (v, r) =>
      match skipWs r with
      | ',' :: r2 => parseJItemList f r2 (acc ++ [v])
      | ']' :: r2 => some (.arr (acc ++ [v]), r2)
      | _ => none

end

/-- Model of `json.loads`: the whole input must be one JSON value surrounded
    only by whitespace. -/
def json_loads (s : List Char) : Option JVal :=
  match parseJVal (s.length + 1) s with
  | some (v, rest) => if skipWs rest = [] then some v else none
  | none => none

example : json_loads (chars "\x7b\"a\": 1\x7d")
    = some (.obj [(chars "a", .num ⟨1, 0⟩)]) := by rfl

example : json_loads (chars " [1, -2.5e1, \"x\", true, null] ")
    = some (.arr [.num ⟨1, 0⟩, .num ⟨-25, 0⟩, .str ['x'],
        .bool true, .null]) := by rfl

example : json_loads (chars "\x7b\"a\": 1") = none := by rfl

example : json_loads (chars "3") = some (.num ⟨3, 0⟩) := by rfl

/-!
## The strict-then-fallback oracle-response parser

Model of `AppWorker._strict_json_parse`.  The Python key check
`any(k not in parsed for k in required_keys)` applies the `in` operator to
whatever `json.loads` produced: on a dict it is a key test, on a list an
element test, on a string a substring test, and on any other value it raises
`TypeError`, which escapes `_strict_json_parse` (only `json.JSONDecodeError`
is caught there).  `ParseOut.raised` records that escaping exception.
-/

/-- Python `k not in v` for a string `k` and a decoded JSON value `v`;
    `none` models the `TypeError` raised on non-container values. -/
def pyNotIn (k : List Char) (v : JVal) : Option Bool :=
  match v with
  | .obj fs => some (!(fs.any (fun p => p.1 == k)))
  | .arr xs => some (!(xs.any (fun x =>
      match x with
      | .str s => s == k
      | _ => false)))
  | .str s => some (!(containsSub s k))
  | _ => none

/-- Model of `any(k not in parsed for k in required_keys)`:
    `some true` when a key is missing, `none` for the `TypeError` raised
    when `parsed` is not a container. -/
def missingKeys? (v : JVal) (keys : List (List Char)) : Option Bool :=
  match keys with
  | [] => some false
  | k :: ks =>
    match pyNotIn k v with
    | none => none
    | some true => some true
    | some false => missingKeys? v ks

/-- Lowest index of a character in a string. -/
def firstIdxOf (c : Char) (s : List Char) : Option Nat := findSub [c] s

/-- Highest index of a character in a string. -/
def lastIdxOf (c : Char) (s : List Char) : Option Nat :=
  (findSub [c] s.reverse).map (fun i => s.length - 1 - i)

/-- Span matched by `re.search(r'\x7b.*\x7d', raw, flags=re.DOTALL)`: the
    leftmost match of the greedy pattern runs from the first opening brace
    that precedes the last closing brace, to that last closing brace. -/
def regexBraceBlock (s : List Char) : Option (List Char) :=
  match firstIdxOf '{' s, lastIdxOf '}' s with
  | some i, some j => if i < j then some ((s.drop i).take (j - i + 1)) else none
  | _, _ => none

/-- Outcome of `_strict_json_parse`: a `{"status": "completed"}` dict whose
    `result` is the parsed value, a `{"status": "error"}` dict with a
    message, or a Python exception escaping the function. -/
inductive ParseOut where
  | completed (v : JVal)
  | failed (msg : List Char)
  | raised (msg : List Char)
deriving Repr

/-- Model of `AppWorker._strict_json_parse`: tier 1 parses the whole
    response; on `json.JSONDecodeError` tier 2 parses the greedy
    first-brace-to-last-brace span; otherwise a fixed error message (the raw
    response is not included in it). -/
def strict_json_parse (raw : List Char) (keys : List (List Char)) : ParseOut :=
  match json_loads raw with
  | some v =>
    match missingKeys? v keys with
    | none => .raised (chars "TypeError: argument of type is not iterable")
    | some true => .failed (chars "LLM JSON missing keys")
    | some false => .completed v
  | none =>
    match regexBraceBlock raw with
    | some block =>
      match json_loads (pyStrip block) with
      | some v =>
        match missingKeys? v keys with
        | none => .raised (chars "TypeError: argument of type is not iterable")
        | some true => .failed (chars "LLM JSON missing keys")
        | some false => .completed v
      | none => .failed (chars "LLM response not valid JSON (fallback)")
    | none => .failed (chars "LLM response not valid JSON")

/-- True when a `ParseOut` is the success case. -/
def ParseOut.isCompleted : ParseOut → Bool
  | .completed _ => true
  | _ => false

/-- True when a `ParseOut` is the error-dictionary case. -/
def ParseOut.isFailed : ParseOut → Bool
  | .failed _ => true
  | _ => false

/-- Helper consuming characters until the brace depth returns to zero. -/
def balancedFrom (acc : List Char) (d : Nat) : List Char → Option (List Char)
  | [] => none
  | c :: rest =>
    if c = '{' then balancedFrom (acc ++ [c]) (d + 1) rest
    else if c = '}' then
      if d = 1 then some (acc ++ [c]) else balancedFrom (acc ++ [c]) (d - 1) rest
    else balancedFrom (acc ++ [c]) d rest

/-- First balanced top-level brace-delimited block of a string.  This
    definition follows the specification's words for tier 2 ("search the
    response for the first balanced top-level object-like block"), for
    comparison against what `_strict_json_parse` actually extracts. -/
def specFirstBalancedBlock (s : List Char) : Option (List Char) :=
  match s.dropWhile (· ≠ '{') with
  | [] => none
  | t => balancedFrom [] 0 t

/-- Two-tier parser as the specification describes it: identical to
    `strict_json_parse` except that tier 2 parses the first *balanced*
    block instead of the greedy first-to-last-brace span. -/
def spec_two_tier_parse (raw : List Char) (keys : List (List Char)) : ParseOut :=
  match json_loads raw with
  | some v =>
    match missingKeys? v keys with
    | none => .raised (chars "TypeError: argument of type is not iterable")
    | some true => .failed (chars "LLM JSON missing keys")
    | some false => .completed v
  | none =>
    match specFirstBalancedBlock raw with
    | some block =>
      match json_loads (pyStrip block) with
      | some v =>
        match missingKeys? v keys with
        | none => .raised (chars "TypeError: argument of type is not iterable")
        | some true => .failed (chars "LLM JSON missing keys")
        | some false => .completed v
      | none => .failed (chars "LLM response not valid JSON (fallback)")
    | none => .failed (chars "LLM response not valid JSON")

/-!
## Memory update

Model of `AppWorker._update_memory`: the insight is appended (with a
newline) when memory is enabled, the stripped insight is nonempty, and the
insight does not already occur in the accumulated memory.
-/

/-- Model of `AppWorker._update_memory` (memory is the first run-state
    component mutated by reflection insights and suspicious vision reasons). -/
def update_memory (memory_enabled : Bool) (memory insight : List Char) :
    List Char :=
  if !memory_enabled then memory
  else if pyStrip insight ≠ [] ∧ !containsSub memory insight then
    memory ++ insight ++ ['\n']
  else memory

/-!
## Emulator device controller (`providers/core/emulator_env.py`)

State of an `EmulatorEnv` instance: the provisioned endpoints and the
`app_package_cache` mapping each `app_ref` to the package name discovered on
installation (`task_map` does not influence any claim and is omitted).
Outcomes of `adb` subprocesses are parameters.  `Except.error` models a
raised Python exception (`ValueError`, `KeyError`,
`EmulatorConnectionError`, `EmulatorInstallError`, `EmulatorRunError`).
-/

/-- State of an `EmulatorEnv` instance. -/
structure EmuEnv where
  endpoints : List (List Char)
  app_package_cache : List (List Char × List Char)
deriving Repr

/-- The marker substring `'base.apk='` used by `_detect_new_package`. -/
def apkMarker : List Char := chars "base.apk="

/-- Lines of `set(after_list) - set(before_list)`.  Python iterates the set
    in unspecified order; the model keeps the lines in `after_list` order,
    deduplicated. -/
def new_package_lines (before after : List (List Char)) : List (List Char) :=
  (after.filter (fun l => !before.contains l)).dedup

/-- Package-name extraction from one `pm list packages -f` line: strip the
    line, find `'base.apk='`, return the stripped remainder; a missing
    marker or an empty remainder raises `ValueError`. -/
def extract_pkg_name (line : List Char) : Except (List Char) (List Char) :=
  let nl := pyStrip line
  match findSub apkMarker nl with
  | none => .error (chars "Cannot parse package name, base.apk marker not found.")
  | some idx =>
    let pkg := pyStrip (nl.drop (idx + apkMarker.length))
    if pkg = [] then .error (chars "Package name is empty after parsing.")
    else .ok pkg

/-- Model of `EmulatorEnv._detect_new_package`: an empty diff raises
    `ValueError`; otherwise one arbitrary new line is popped from the set
    (the model takes the first) and its package name extracted — a diff of
    two or more lines is *not* rejected. -/
def detect_new_package (before after : List (List Char)) :
    Except (List Char) (List Char) :=
  match new_package_lines before after with
  | [] => .error (chars "Failed to detect newly installed package. No new packages found.")
  | line :: _ => extract_pkg_name line

/-- Model of `EmulatorEnv.install_app`.  `install_output` is the stdout of
    `adb install`; `before`/`after` are the package listings around it.
    On success the discovered package name is cached under `app_ref`. -/
def install_app (st : EmuEnv) (app_ref : List Char)
    (install_output : List Char) (before after : List (List Char)) :
    Except (List Char) (List Char × EmuEnv) :=
  let app_ref := pyStrip app_ref
  if app_ref = [] then .error (chars "app_ref must not be empty in install_app.")
  else if st.endpoints = [] then .error (chars "No emulator endpoints to install app.")
  else
    match st.app_package_cache.find? (fun p => p.1 == app_ref) with
    | some pr => .ok (pr.2, st)
    | none =>
      if !containsSub install_output (chars "Success") then
        .error (chars "Failed to install app.")
      else
        match detect_new_package before after with
        | .error e => .error e
        | .ok pkg =>
          .ok (pkg, { st with
            app_package_cache := st.app_package_cache ++ [(app_ref, pkg)] })

/-- Model of `EmulatorEnv.init_device`: the package cache is reset to empty,
    then emulators are provisioned and the endpoint list reloaded; an empty
    endpoint list after provisioning raises.  The adb `connect` result is
    not checked (`check=False`). -/
def init_device (st : EmuEnv) (provisioned : List (List Char)) :
    Except (List Char) EmuEnv :=
  let st := { st with app_package_cache := [] }
  let st := { st with endpoints := provisioned }
  if st.endpoints = [] then
    .error (chars "No emulator endpoints available after provisioning.")
  else .ok st

/-- Model of `EmulatorEnv._attempt_launch_app`: monkey launch, with an
    `am start` fallback; both failing raises `EmulatorRunError`. -/
def attempt_launch_app (monkey_out start_out : List Char) :
    Except (List Char) Unit :=
  if !containsSub (toLowerL monkey_out) (chars "injecting event") then
    if !containsSub start_out (chars "Starting:") then
      .error (chars "EmulatorRunError: failed to run app")
    else .ok ()
  else .ok ()

/-- Model of `EmulatorEnv.run_app`: requires endpoints, then reads
    `self.app_package_cache[app_ref]` with an *unguarded* subscript — a
    cache miss raises `KeyError` — then launches and screenshots.  The
    returned value stands for the `{"visuals", "events", "task_id"}` dict. -/
def run_app (st : EmuEnv) (app_ref : List Char)
    (monkey_out start_out : List Char) (screencap_ok : Bool) :
    Except (List Char) (List Char) :=
  if st.endpoints = [] then
    .error (chars "No emulator endpoints to run app.")
  else
    match st.app_package_cache.find? (fun p => p.1 == app_ref) with
    | none => .error (chars "KeyError: app_ref not in app_package_cache")
    | some pr =>
      match attempt_launch_app monkey_out start_out with
      | .error e => .error e
      | .ok _ =>
        if !screencap_ok then
          .error (chars "EmulatorRunError: failed to capture screenshot")
        else .ok pr.2

/-- True when an `Except` is in the error (raised-exception) case. -/
def exceptIsError {ε α : Type} : Except ε α → Bool
  | .error _ => true
  | .ok _ => false

/-!
## AppWorker: step records and call helpers

Step records are Python dicts, modelled as `JVal.obj` with fields in the
source's insertion order.  `pyStr` stands for Python's string interpolation
of a decoded JSON value into an f-string; its rendering of numbers and
containers is an abbreviation (no claim inspects those characters), while
strings — the only case the worker actually produces — render exactly.
-/

/-- Interpolation of a decoded JSON value into an f-string. -/
def pyStr : JVal → List Char
  | .null => chars "None"
  | .bool true => chars "True"
  | .bool false => chars "False"
  | .num n =>
    if n.exp10 = 0 then intChars n.mant
    else intChars n.mant ++ 'e' :: intChars n.exp10
  | .str s => s
  | .arr _ => chars "<list>"
  | .obj _ => chars "<dict>"

/-- The weight literal `0.0` that every call site passes. -/
def jzero : JNum := ⟨0, 0⟩

/-- The confidence literal `0.5`. -/
def jhalf : JNum := ⟨5, -1⟩

/-- The confidence literal `0.8`. -/
def jp8 : JNum := ⟨8, -1⟩

/-- The confidence literal `0.7`. -/
def jp7 : JNum := ⟨7, -1⟩

/-- Result of `AppWorker._retry_call`: the parsed response body on success,
    or the fixed `"Max retries exceeded"` error dict. -/
inductive RetryRes where
  | completed (data : JVal)
  | failed
deriving Repr

/-- One outcome of a device-endpoint HTTP call made inside `_retry_call`:
    network exception, non-200 status code, JSON status not `ok`/`success`,
    or a successful response with its body. -/
inductive DevOut where
  | netErr
  | badHttp
  | statusBad
  | okPayload (data : JVal)
deriving Repr

/-- Model of `AppWorker._retry_call`: up to `max_retries` attempts, stopping
    at the first response that is HTTP 200 with JSON status `ok`/`success`.
    Attempts beyond the provided outcome list count as failures. -/
def retry_call (attempts : List DevOut) (max_retries : Nat) : RetryRes :=
  match max_retries, attempts with
  | 0, _ => .failed
  | _ + 1, [] => .failed
  | n + 1, a :: rest =>
    match a with
    | .okPayload d => .completed d
    | _ => retry_call rest n

/-- Model of `AppWorker._make_check_entry` applied to a `_retry_call`
    result: risk is always `low`; confidence, explanation suffix, `status`,
    and the optional `message`/`data` fields depend on success. -/
def make_check_entry (cid agent : List Char) (w : JNum) (result : RetryRes)
    (explan : List Char) : JVal :=
  match result with
  | .completed d =>
    .obj [(chars "check_id", .str cid),
          (chars "analysis_agent", .str agent),
          (chars "weight", .num w),
          (chars "risk_level", .str (chars "low")),
          (chars "confidence", .num jp8),
          (chars "explanation", .str (explan ++ chars " - success.")),
          (chars "status", .str (chars "completed")),
          (chars "data", d)]
  | .failed =>
    .obj [(chars "check_id", .str cid),
          (chars "analysis_agent", .str agent),
          (chars "weight", .num w),
          (chars "risk_level", .str (chars "low")),
          (chars "confidence", .num jhalf),
          (chars "explanation", .str (explan ++ chars " - Max retries exceeded")),
          (chars "status", .str (chars "error")),
          (chars "message", .str (chars "Max retries exceeded"))]

/-- Outcome of one `GET /emulator/screenshot` call in
    `_get_screenshot_for_task`: the four error branches or success. -/
inductive ShotOut where
  | netErr
  | badHttp
  | statusBad
  | noData
  | ok
deriving Repr, DecidableEq

/-- Result dict of `_get_screenshot_for_task` (the screenshot path is the
    constant `./app_worker_screenshot.jpg` and carries no information). -/
inductive ShotRes where
  | failed (msg : List Char)
  | completed
deriving Repr

/-- Model of `AppWorker._get_screenshot_for_task`. -/
def get_screenshot_for_task (o : ShotOut) : ShotRes :=
  match o with
  | .netErr => .failed (chars "Net error screenshot")
  | .badHttp => .failed (chars "screenshot bad status code")
  | .statusBad => .failed (chars "screenshot not ok")
  | .noData => .failed (chars "No screenshot data")
  | .ok => .completed

/-- Model of `AppWorker._make_screenshot_check`.  The produced dict carries
    *no* `status` key in either branch, exactly as in the source. -/
def make_screenshot_check (cid : List Char) (w : JNum) (result : ShotRes)
    (explan : List Char) : JVal :=
  match result with
  | .failed msg =>
    .obj [(chars "check_id", .str cid),
          (chars "analysis_agent", .str (chars "emulator_screenshot")),
          (chars "weight", .num w),
          (chars "risk_level", .str (chars "low")),
          (chars "confidence", .num jhalf),
          (chars "explanation", .str (explan ++ chars " - " ++ msg))]
  | .completed =>
    .obj [(chars "check_id", .str cid),
          (chars "analysis_agent", .str (chars "emulator_screenshot")),
          (chars "weight", .num w),
          (chars "risk_level", .str (chars "low")),
          (chars "confidence", .num jp7),
          (chars "explanation", .str (explan ++ chars " - Screenshot taken."))]

/-- Python subscript `v[k]` on a decoded JSON value: `KeyError` on a dict
    miss, `TypeError` on a non-dict (string indices / list indices). -/
def pySubscript (v : JVal) (k : List Char) : Except (List Char) JVal :=
  match v with
  | .obj fs =>
    match (fs.find? (fun p => p.1 == k)).map (·.2) with
    | some x => .ok x
    | none => .error (chars "KeyError")
  | _ => .error (chars "TypeError: value is not subscriptable by str")

/-- Outcome of one LLM HTTP call (`/llm/vision` or `/llm/chat_complete`):
    network exception, non-200 code, body status not `success`, or the raw
    response text handed to `_strict_json_parse`. -/
inductive LLMOut where
  | netErr
  | badHttp
  | notSuccess
  | response (raw : List Char)
deriving Repr

/-- Result dict of one `_call_vision_llm_for_json` / `_call_llm_for_json`
    call: an error dict with a message, or success with the parsed value. -/
inductive VRes where
  | failed (msg : List Char)
  | completed (v : JVal)
deriving Repr

/-- Model of `AppWorker._call_vision_llm_for_json`: HTTP/status failures
    become error dicts; a raw response goes through `_strict_json_parse`
    (stripped first, as the call site does), whose `TypeError` escapes. -/
def call_vision_llm_for_json (keys : List (List Char)) (o : LLMOut) :
    Except (List Char) VRes :=
  match o with
  | .netErr => .ok (.failed (chars "Net err Vision LLM"))
  | .badHttp => .ok (.failed (chars "Vision LLM bad status code"))
  | .notSuccess => .ok (.failed (chars "Vision LLM not success"))
  | .response raw =>
    match strict_json_parse (pyStrip raw) keys with
    | .completed v => .ok (.completed v)
    | .failed m => .ok (.failed m)
    | .raised m => .error m

/-- Model of `AppWorker._call_llm_for_json` (chat-completion endpoint used
    by reflection and aggregation); same structure, different messages. -/
def call_llm_for_json (keys : List (List Char)) (o : LLMOut) :
    Except (List Char) VRes :=
  match o with
  | .netErr => .ok (.failed (chars "Net err aggregator LLM"))
  | .badHttp => .ok (.failed (chars "LLM bad status code"))
  | .notSuccess => .ok (.failed (chars "LLM aggregator not success"))
  | .response raw =>
    match strict_json_parse (pyStrip raw) keys with
    | .completed v => .ok (.completed v)
    | .failed m => .ok (.failed m)
    | .raised m => .error m

/-- Model of `AppWorker._attempt_vision_llm_for_json`: three attempts,
    returning the first success, else the fixed three-failures error dict.
    An exception in any executed attempt escapes. -/
def attempt_vision_llm_for_json (keys : List (List Char))
    (o1 o2 o3 : LLMOut) : Except (List Char) VRes :=
  match call_vision_llm_for_json keys o1 with
  | .error e => .error e
  | .ok (.completed v) => .ok (.completed v)
  | .ok (.failed _) =>
    match call_vision_llm_for_json keys o2 with
    | .error e => .error e
    | .ok (.completed v) => .ok (.completed v)
    | .ok (.failed _) =>
      match call_vision_llm_for_json keys o3 with
      | .error e => .error e
      | .ok (.completed v) => .ok (.completed v)
      | .ok (.failed _) => .ok (.failed (chars "Vision LLM 3 attempts failed"))

/-- Required keys of every exploration-loop vision call. -/
def keysVision : List (List Char) :=
  [chars "risk_level", chars "confidence", chars "reason", chars "action"]

/-- Required keys of the identification vision call. -/
def keysIdent : List (List Char) :=
  [chars "risk_level", chars "confidence", chars "reason"]

/-- Required keys of a reflection call. -/
def keysReflect : List (List Char) :=
  [chars "status", chars "risk_level", chars "confidence", chars "explanation"]

/-- Required keys of an aggregation call. -/
def keysAgg : List (List Char) :=
  [chars "risk_level", chars "confidence", chars "reasons"]

/-- Model of `AppWorker._make_vision_check`.  On success the record copies
    `risk_level` and `confidence` from the parsed value via subscripts whose
    `TypeError`/`KeyError` escapes; the dict has no `status` key. -/
def make_vision_check (cid : List Char) (w : JNum) (result : VRes)
    (explan : List Char) : Except (List Char) JVal :=
  match result with
  | .failed msg =>
    .ok (.obj [(chars "check_id", .str cid),
          (chars "analysis_agent", .str (chars "vision_llm")),
          (chars "weight", .num w),
          (chars "risk_level", .str (chars "low")),
          (chars "confidence", .num jhalf),
          (chars "explanation",
            .str (explan ++ chars " - Vision LLM error: " ++ msg))])
  | .completed vr =>
    match pySubscript vr (chars "risk_level") with
    | .error e => .error e
    | .ok rl =>
      match pySubscript vr (chars "confidence") with
      | .error e => .error e
      | .ok cf =>
        match pySubscript vr (chars "reason") with
        | .error e => .error e
        | .ok rs =>
          .ok (.obj [(chars "check_id", .str cid),
                (chars "analysis_agent", .str (chars "vision_llm")),
                (chars "weight", .num w),
                (chars "risk_level", rl),
                (chars "confidence", cf),
                (chars "explanation",
                  .str (explan ++ chars " - " ++ pyStr rs))])

/-- Status-field comparison `res["status"] == which` on a record dict, via a
    genuine subscript (`KeyError` escapes on a dict without the key). -/
def recStatusIs (v : JVal) (which : List Char) : Except (List Char) Bool :=
  match pySubscript v (chars "status") with
  | .error e => .error e
  | .ok (.str t) => .ok (t == which)
  | .ok _ => .ok false

/-- The dict after `_reflect_on_change`'s insight-defaulting item
    assignment: the parsed fields, with `insight` set to `"No new insight"`
    when absent. -/
def reflectFields (fs0 : List (List Char × JVal)) : List (List Char × JVal) :=
  if (fs0.find? (fun p => p.1 == chars "insight")).isSome then fs0
  else dictInsert fs0 (chars "insight") (.str (chars "No new insight"))

/-- Model of `AppWorker._reflect_on_change`: one chat-completion call with
    the reflection keys; on success the optional `insight` defaults to
    `"No new insight"` and a five-field completed dict is returned, on an
    error dict the error dict itself is returned.  A non-dict parsed value
    raises (`TypeError` at the item assignment or field subscripts). -/
def reflect_on_change (o : LLMOut) : Except (List Char) JVal :=
  match call_llm_for_json keysReflect o with
  | .error e => .error e
  | .ok (.failed m) =>
    .ok (.obj [(chars "status", .str (chars "error")),
               (chars "message", .str m)])
  | .ok (.completed v) =>
    match v with
    | .obj fs0 =>
      match pySubscript (.obj (reflectFields fs0)) (chars "risk_level") with
      | .error e => .error e
      | .ok rl =>
        match pySubscript (.obj (reflectFields fs0)) (chars "confidence") with
        | .error e => .error e
        | .ok cf =>
          match pySubscript (.obj (reflectFields fs0)) (chars "explanation") with
          | .error e => .error e
          | .ok ex =>
            match pySubscript (.obj (reflectFields fs0)) (chars "insight") with
            | .error e => .error e
            | .ok ins =>
              .ok (.obj [(chars "status", .str (chars "completed")),
                         (chars "risk_level", rl),
                         (chars "confidence", cf),
                         (chars "explanation", ex),
                         (chars "insight", ins)])
    | _ => .error (chars "TypeError: reflection result is not a dict")

/-- Outcome of one action-endpoint HTTP call in `_perform_action_once`. -/
inductive ActOut where
  | netErr
  | badHttp
  | respBad
  | respOk
deriving Repr

/-- The error record built by `AppWorker._action_error`. -/
def action_error (msg : List Char) : JVal :=
  .obj [(chars "check_id", .str (chars "action_error")),
        (chars "analysis_agent", .str (chars "emulator_action")),
        (chars "weight", .num jzero),
        (chars "risk_level", .str (chars "low")),
        (chars "confidence", .num jhalf),
        (chars "explanation", .str (chars "Action failed: " ++ msg)),
        (chars "status", .str (chars "error"))]

/-- The success record `_perform_action_once` builds after a 200/`ok`
    response. -/
def action_success_record (low a : List Char) : JVal :=
  .obj [(chars "check_id", .str (chars "action_" ++ low)),
        (chars "analysis_agent", .str (chars "emulator_action")),
        (chars "weight", .num jzero),
        (chars "risk_level", .str (chars "low")),
        (chars "confidence", .num jp8),
        (chars "explanation", .str (chars "Action " ++ a ++ chars " - success.")),
        (chars "status", .str (chars "completed"))]

/-- The record returned for the (dispatch-level) `none` action. -/
def action_none_record : JVal :=
  .obj [(chars "check_id", .str (chars "action_none")),
        (chars "analysis_agent", .str (chars "emulator_action")),
        (chars "weight", .num jzero),
        (chars "risk_level", .str (chars "low")),
        (chars "confidence", .num jp8),
        (chars "explanation", .str (chars "No action chosen - success.")),
        (chars "status", .str (chars "completed"))]

/-- Shared tail of every networked action branch: dispatch the HTTP
    outcome into a success record or an `_action_error` record. -/
def action_network (low a : List Char) (o : ActOut) : JVal :=
  match o with
  | .netErr => action_error (chars "Network error action")
  | .badHttp => action_error (chars "action endpoint bad status code")
  | .respBad => action_error (chars "action not ok")
  | .respOk => action_success_record low a

/-- Literal matcher: consume `pat` from the front or fail. -/
def expectLit (pat s : List Char) : Option (List Char) :=
  if pat.isPrefixOf s then some (s.drop pat.length) else none

/-- One-or-more digits matcher. -/
def expectDigits (s : List Char) : Option (List Char × List Char) :=
  let pr := takeDigits s
  if pr.1 = [] then none else some pr

/-- Model of `re.match` against
    `Swipe\s*\((\d+),(\d+)\)\s*,\s*\((\d+),(\d+)\)`: anchored at the start,
    case-sensitive `Swipe` literal, arbitrary trailing text. -/
def swipeMatch? (s : List Char) : Option ((Nat × Nat) × (Nat × Nat)) := do
  let s ← expectLit (chars "Swipe") s
  let s := s.dropWhile Char.isWhitespace
  let s ← expectLit ['('] s
  let (d1, s) ← expectDigits s
  let s ← expectLit [','] s
  let (d2, s) ← expectDigits s
  let s ← expectLit [')'] s
  let s := s.dropWhile Char.isWhitespace
  let s ← expectLit [','] s
  let s := s.dropWhile Char.isWhitespace
  let s ← expectLit ['('] s
  let (d3, s) ← expectDigits s
  let s ← expectLit [','] s
  let (d4, s) ← expectDigits s
  let _ ← expectLit [')'] s
  return ((digitsToNat d1, digitsToNat d2), (digitsToNat d3, digitsToNat d4))

/-- The `Tap` coordinate extraction
    `action_str.split("(")[-1].split(")")[0].split(",")`. -/
def tapCoords (a : List Char) : List (List Char) :=
  splitOnChar ',' ((splitOnChar ')' ((splitOnChar '(' a).getLastD [])).headD [])

/-- Model of `AppWorker._perform_action_once`: string-matched dispatch on
    the lowered action text.  A malformed `Tap` argument list of length two
    whose members are not `int`-parseable raises `ValueError` (uncaught in
    the source: the `except` clause there matches only network errors). -/
def perform_action_once (action_str : List Char) (o : ActOut) :
    Except (List Char) JVal :=
  let a := pyStrip action_str
  let low := toLowerL a
  if (chars "tap(").isPrefixOf low then
    match tapCoords a with
    | [x, y] =>
      match pyInt? (pyStrip x), pyInt? (pyStrip y) with
      | some _, some _ => .ok (action_network low a o)
      | _, _ => .error (chars "ValueError: invalid literal for int")
    | _ => .ok (action_error (chars "Tap parse fail"))
  else if (chars "swipe(").isPrefixOf low then
    match swipeMatch? a with
    | none => .ok (action_error (chars "Swipe parse fail"))
    | some _ => .ok (action_network low a o)
  else if low = chars "back" then .ok (action_network low a o)
  else if low = chars "home" then .ok (action_network low a o)
  else if low = chars "none" then .ok action_none_record
  else .ok (action_error (chars "Unknown action"))

/-- Model of `AppWorker._perform_action_with_retry`: two attempts, the
    first completed result is returned, else the second result whatever its
    status. -/
def perform_action_with_retry (action_str : List Char) (o1 o2 : ActOut) :
    Except (List Char) JVal :=
  match perform_action_once action_str o1 with
  | .error e => .error e
  | .ok r1 =>
    match recStatusIs r1 (chars "completed") with
    | .error e => .error e
    | .ok c1 =>
      if c1 then .ok r1
      else perform_action_once action_str o2

/-!
## The exploration loop (`AppWorker._simulate_exploration`)

The wall-clock budget `while time.time() - start_time < run_duration*60` is
modelled by the length of the iteration-outcome list: the list holds one
entry per iteration the remaining time would admit, so quantifying over all
lists quantifies over all time budgets.  The error-budget state follows the
source exactly: every error site increments both counters and immediately
tests `total_errors > max_total or consecutive_errors > max_consecutive`,
breaking the loop on the spot; every success site assigns
`consecutive_errors = 0`.
-/

/-- Worker configuration fields that the exploration loop reads. -/
structure Cfg where
  reflection_enabled : Bool
  memory_enabled : Bool
  max_total_errors : Nat
  max_consecutive_errors : Nat
deriving Repr

/-- The defaults from the source: reflection and memory on, 15 total and 3
    consecutive errors. -/
def cfgDefault : Cfg := ⟨true, true, 15, 3⟩

/-- Loop state of one `_simulate_exploration` run: the two error counters,
    the iteration counter, whether `self.prev_screenshot_path` has been set,
    and the accumulated memory string. -/
structure ExpSt where
  total_errors : Nat
  consecutive_errors : Nat
  checks_count : Nat
  has_prev_shot : Bool
  memory : List Char
deriving Repr

/-- The state every error site produces: both counters incremented. -/
def stageError (st : ExpSt) : ExpSt :=
  { st with total_errors := st.total_errors + 1,
            consecutive_errors := st.consecutive_errors + 1 }

/-- The state every success site produces: `consecutive_errors = 0`. -/
def stageSuccess (st : ExpSt) : ExpSt :=
  { st with consecutive_errors := 0 }

/-- The loop-break condition
    `total_errors > max_total_errors or consecutive_errors > max_consecutive_errors`. -/
def budgetExceeded (cfg : Cfg) (st : ExpSt) : Bool :=
  st.total_errors > cfg.max_total_errors
    || st.consecutive_errors > cfg.max_consecutive_errors

/-- External outcomes consumed by one iteration of the exploration loop:
    the screenshot call, the three vision-LLM attempts, the two
    action-endpoint attempts, and the single reflection call. -/
structure IterOutcome where
  shot : ShotOut
  vis1 : LLMOut
  vis2 : LLMOut
  vis3 : LLMOut
  act1 : ActOut
  act2 : ActOut
  refl : LLMOut
deriving Repr

/-- Action phase of one iteration (the `if action_str.lower()!="none"`
    block): perform the action, and on an error record increment the
    counters and test the budget; on success reset `consecutive_errors`.
    Returns the new state, the appended records, and whether the loop
    breaks here. -/
def explorePhaseAction (cfg : Cfg) (performed : Bool) (action_str : List Char)
    (o1 o2 : ActOut) (st : ExpSt) :
    Except (List Char) (ExpSt × List JVal × Bool) :=
  if !performed then .ok (st, [], false)
  else
    match perform_action_with_retry action_str o1 o2 with
    | .error e => .error e
    | .ok ar =>
      match recStatusIs ar (chars "error") with
      | .error e => .error e
      | .ok isErr =>
        if isErr then
          let st' := stageError st
          .ok (st', [ar], budgetExceeded cfg st')
        else
          .ok (stageSuccess st, [ar], false)

/-- Memory update from a completed reflection record:
    `if "insight" in reflect_res: self._update_memory(reflect_res["insight"])`.
    A non-string insight raises inside `_update_memory` at `.strip()`. -/
def applyReflectInsight (cfg : Cfg) (rrec : JVal) (st : ExpSt) :
    Except (List Char) ExpSt :=
  match jget rrec (chars "insight") with
  | none => .ok st
  | some (.str s) =>
    .ok { st with memory := update_memory cfg.memory_enabled st.memory s }
  | some _ => .error (chars "AttributeError: insight has no strip")

/-- Reflection phase of one iteration: only when reflection is enabled; the
    oracle is consulted only when a previous screenshot exists and an action
    was attempted.  On an error record the counters increment and the budget
    is tested (a break skips the `prev_screenshot_path` update, which the
    source performs after the inner block); on success `consecutive_errors`
    resets and any insight is folded into memory. -/
def explorePhaseReflect (cfg : Cfg) (performed : Bool) (o : LLMOut)
    (st : ExpSt) : Except (List Char) (ExpSt × List JVal × Bool) :=
  if !cfg.reflection_enabled then .ok (st, [], false)
  else if st.has_prev_shot && performed then
    match reflect_on_change o with
    | .error e => .error e
    | .ok rrec =>
      match recStatusIs rrec (chars "error") with
      | .error e => .error e
      | .ok isErr =>
        if isErr then
          if budgetExceeded cfg (stageError st) then
            .ok (stageError st, [rrec], true)
          else
            .ok ({ stageError st with has_prev_shot := true }, [rrec], false)
        else
          match applyReflectInsight cfg rrec (stageSuccess st) with
          | .error e => .error e
          | .ok st'' => .ok ({ st'' with has_prev_shot := true }, [rrec], false)
  else .ok ({ st with has_prev_shot := true }, [], false)

/-- Vision-reason memory phase:
    `if self.memory_enabled and "No suspicious" not in vr["reason"]`, then
    append `"Additional insight from vision: " + vr["reason"]` to memory.
    The subscript, the `in` test, and the concatenation raise on the
    corresponding non-string shapes exactly as in Python. -/
def explorePhaseMemory (cfg : Cfg) (vr : JVal) (st : ExpSt) :
    Except (List Char) ExpSt :=
  if !cfg.memory_enabled then .ok st
  else
    match pySubscript vr (chars "reason") with
    | .error e => .error e
    | .ok reason =>
    match pyNotIn (chars "No suspicious") reason with
    | none => .error (chars "TypeError: argument of type is not iterable")
    | some false => .ok st
    | some true =>
      match reason with
      | .str s =>
        let mem' := update_memory cfg.memory_enabled st.memory
          (chars "Additional insight from vision: " ++ s)
        .ok { st with memory := mem' }
      | _ => .error (chars "TypeError: can only concatenate str")

/-- One iteration of the exploration loop, mirroring the body of the
    `while` statement in `_simulate_exploration`.  Returns the state after
    the iteration, whether the loop breaks (`break` was reached), and the
    records appended to `exploration_steps` during the iteration. -/
def exploreIter (cfg : Cfg) (o : IterOutcome) (st0 : ExpSt) :
    Except (List Char) (ExpSt × Bool × List JVal) :=
  let st := { st0 with checks_count := st0.checks_count + 1 }
  let n := st.checks_count
  let shot_res := get_screenshot_for_task o.shot
  let sc_check := make_screenshot_check
    (chars "check_2_explore_shot_" ++ natChars n) jzero shot_res
    (chars "Exploration screenshot #" ++ natChars n)
  match shot_res with
  | .failed _ =>
    let st := stageError st
    .ok (st, budgetExceeded cfg st, [sc_check])
  | .completed =>
  let st := stageSuccess st
  match attempt_vision_llm_for_json keysVision o.vis1 o.vis2 o.vis3 with
  | .error e => .error e
  | .ok vis =>
  match make_vision_check (chars "check_2_explore_vision_" ++ natChars n)
      jzero vis (chars "Exploration vision analysis #" ++ natChars n) with
  | .error e => .error e
  | .ok vision_check =>
  match vis with
  | .failed _ =>
    let st := stageError st
    .ok (st, budgetExceeded cfg st, [sc_check, vision_check])
  | .completed vr =>
  let st := stageSuccess st
  match pySubscript vr (chars "action") with
  | .error e => .error e
  | .ok (.str sAct) =>
    let action_str := pyStrip sAct
    let performed := !(toLowerL action_str == chars "none")
    (match explorePhaseAction cfg performed action_str o.act1 o.act2 st with
    | .error e => .error e
    | .ok (st1, actRecs, brokeA) =>
      if brokeA then .ok (st1, true, [sc_check, vision_check] ++ actRecs)
      else
        match explorePhaseReflect cfg performed o.refl st1 with
        | .error e => .error e
        | .ok (st2, reflRecs, brokeR) =>
          if brokeR then
            .ok (st2, true, [sc_check, vision_check] ++ actRecs ++ reflRecs)
          else
            match explorePhaseMemory cfg vr st2 with
            | .error e => .error e
            | .ok st3 =>
              .ok (st3, budgetExceeded cfg st3,
                [sc_check, vision_check] ++ actRecs ++ reflRecs))
  | .ok _ => .error (chars "AttributeError: action has no strip")

/-- The exploration `while` loop over the iterations the wall clock admits:
    returns the final state, the full `exploration_steps` list, and the
    number of iterations that ran. -/
def exploreLoop (cfg : Cfg) : List IterOutcome → ExpSt →
    Except (List Char) (ExpSt × List JVal × Nat)
  | [], st => .ok (st, [], 0)
  | o :: rest, st =>
    match exploreIter cfg o st with
    | .error e => .error e
    | .ok (st', broke, recs) =>
      if broke then .ok (st', recs, 1)
      else
        match exploreLoop cfg rest st' with
        | .error e => .error e
        | .ok (st'', recs', k) => .ok (st'', recs ++ recs', k + 1)

/-- States at the start of each iteration the loop actually enters. -/
def exploreStarts (cfg : Cfg) : List IterOutcome → ExpSt → List ExpSt
  | [], _ => []
  | o :: rest, st =>
    st :: (match exploreIter cfg o st with
      | .ok (st', false, _) => exploreStarts cfg rest st'
      | _ => [])

/-- The state the loop starts from (`total_errors = 0`,
    `consecutive_errors = 0`, fresh memory, no previous screenshot). -/
def expInit : ExpSt := ⟨0, 0, 0, false, []⟩

/-!
## The main workflow (`AppWorker.process`)

`process` is modelled over an environment holding the outcome of every
external call the run could make.  It returns the response dict, the
ordered list of high-level calls performed (used to state that failures
short-circuit later stages), and the accumulated `steps_data`.  The upload
step's filename rebinding only changes the string sent to the install
endpoint, whose outcome is already an environment parameter, so it carries
no information here.
-/

/-- Result of `AppWorker.validate_task` on the `app_ref` field (`none`
    means valid): missing, non-string, or whitespace-only values fail. -/
def validate_task (app_ref : Option JVal) : Option (List Char) :=
  match app_ref with
  | some (.str s) =>
    if pyStrip s = [] then some (chars "missing or empty app_ref field")
    else none
  | some _ => some (chars "missing or empty app_ref field")
  | none => some (chars "missing or empty app_ref field")

/-- High-level external calls `process` can make, in order of appearance. -/
inductive Call where
  | initDevice
  | uploadApp
  | installApp
  | runApp
  | initialShot
  | identVision
  | exploration
  | aggregation
deriving Repr, DecidableEq

/-- Outcomes of every external call one `process` run could make. -/
structure ProcEnv where
  appIsLocal : Bool
  initAttempts : List DevOut
  uploadAttempts : List DevOut
  installAttempts : List DevOut
  runAttempts : List DevOut
  shot0 : ShotOut
  ident1 : LLMOut
  ident2 : LLMOut
  ident3 : LLMOut
  iters : List IterOutcome
  agg1 : LLMOut
  agg2 : LLMOut
  agg3 : LLMOut
deriving Repr

/-- The `steps_data` dictionary: one record list per stage. -/
structure StepsData where
  step0 : List JVal
  step1 : List JVal
  step2 : List JVal
deriving Repr

/-- `steps_data` as the JSON value embedded in the final result. -/
def stepsJson (sd : StepsData) : JVal :=
  .obj [(chars "Step0_Emulator_Preparation", .arr sd.step0),
        (chars "Step1_App_Identification", .arr sd.step1),
        (chars "Step2_App_Exploration", .arr sd.step2)]

/-- Model of `AppWorker._fail_no_analysis` (and of the identical minimal
    dict built inline on aggregator failure): status `completed`, risk
    `high`, confidence `0.5`, reasons echoing the accumulated records. -/
def fail_no_analysis (sd : StepsData) : JVal :=
  .obj [(chars "status", .str (chars "completed")),
        (chars "result",
          .obj [(chars "risk_level", .str (chars "high")),
                (chars "confidence", .num jhalf),
                (chars "reasons", stepsJson sd)])]

/-- Model of `AppWorker._final_aggregate_with_retry`: up to three
    aggregation calls (each one `_call_llm_for_json` with the aggregation
    keys), returning the first completed result, else an error. -/
def final_aggregate_with_retry (o1 o2 o3 : LLMOut) :
    Except (List Char) VRes :=
  match call_llm_for_json keysAgg o1 with
  | .error e => .error e
  | .ok (.completed v) => .ok (.completed v)
  | .ok (.failed _) =>
    match call_llm_for_json keysAgg o2 with
    | .error e => .error e
    | .ok (.completed v) => .ok (.completed v)
    | .ok (.failed _) =>
      match call_llm_for_json keysAgg o3 with
      | .error e => .error e
      | .ok (.completed v) => .ok (.completed v)
      | .ok (.failed _) => .ok (.failed (chars "Aggregator failed after 3 tries"))

/-- Whether a `_retry_call` result is the error dict. -/
def RetryRes.isFailed : RetryRes → Bool
  | .failed => true
  | .completed _ => false

/-- Continuation of `AppWorker.process` from the install step onward,
    given the `steps_data` and calls accumulated by the preparation steps
    before it (init and the optional upload). -/
def process_from_install (cfg : Cfg) (env : ProcEnv) (sd1 : StepsData)
    (calls1 : List Call) :
    Except (List Char) (JVal × List Call × StepsData) :=
  let insRes := retry_call env.installAttempts 3
  let insCheck := make_check_entry (chars "check_0_install_app")
    (chars "emulator_install_app") jzero insRes (chars "Install the app")
  let sd2 : StepsData := { sd1 with step0 := sd1.step0 ++ [insCheck] }
  let calls2 := calls1 ++ [Call.installApp]
  if insRes.isFailed then .ok (fail_no_analysis sd2, calls2, sd2)
  else
  let runRes := retry_call env.runAttempts 2
  let runCheck := make_check_entry (chars "check_1_run_app")
    (chars "emulator_run_app") jzero runRes (chars "Run the app")
  let sd3 : StepsData := { sd2 with step1 := sd2.step1 ++ [runCheck] }
  let calls3 := calls2 ++ [Call.runApp]
  match runRes with
  | .failed => .ok (fail_no_analysis sd3, calls3, sd3)
  | .completed runData =>
  match pySubscript runData (chars "task_id") with
  | .error e => .error e
  | .ok _ =>
  let calls4 := calls3 ++ [Call.initialShot]
  let shotRes := get_screenshot_for_task env.shot0
  let shotCheck := make_screenshot_check (chars "check_1_initial_screenshot")
    jzero shotRes (chars "Initial screenshot after run_app")
  let sd4 : StepsData := { sd3 with step1 := sd3.step1 ++ [shotCheck] }
  match shotRes with
  | .failed _ => .ok (fail_no_analysis sd4, calls4, sd4)
  | .completed =>
  let calls5 := calls4 ++ [Call.identVision]
  match attempt_vision_llm_for_json keysIdent env.ident1 env.ident2 env.ident3 with
  | .error e => .error e
  | .ok identRes =>
  match make_vision_check (chars "check_1_ident_vision") jzero identRes
      (chars "Vision LLM app identify") with
  | .error e => .error e
  | .ok identCheck =>
  let sd5 : StepsData := { sd4 with step1 := sd4.step1 ++ [identCheck] }
  let calls6 := calls5 ++ [Call.exploration]
  match exploreLoop cfg env.iters expInit with
  | .error e => .error e
  | .ok (_est, recs, _k) =>
  let sd6 : StepsData := { sd5 with step2 := sd5.step2 ++ recs }
  let calls7 := calls6 ++ [Call.aggregation]
  match final_aggregate_with_retry env.agg1 env.agg2 env.agg3 with
  | .error e => .error e
  | .ok (.failed _) => .ok (fail_no_analysis sd6, calls7, sd6)
  | .ok (.completed v) =>
    .ok (.obj [(chars "status", .str (chars "completed")),
               (chars "result", v)], calls7, sd6)

/-- Model of `AppWorker.process`: preparation (init, optional upload), then
    `process_from_install` for the rest of the workflow.  Returns the
    response dict, the ordered calls performed, and the accumulated
    `steps_data`. -/
def process (cfg : Cfg) (env : ProcEnv) :
    Except (List Char) (JVal × List Call × StepsData) :=
  let initRes := retry_call env.initAttempts 3
  let initCheck := make_check_entry (chars "check_0_init_device")
    (chars "emulator_device_init") jzero initRes
    (chars "Initialize emulator device")
  let sd0 : StepsData := ⟨[initCheck], [], []⟩
  let calls0 : List Call := [Call.initDevice]
  if initRes.isFailed then .ok (fail_no_analysis sd0, calls0, sd0)
  else
    if env.appIsLocal then
      let upRes := retry_call env.uploadAttempts 3
      let upCheck := make_check_entry (chars "check_0_upload_app")
        (chars "emulator_upload_app") jzero upRes (chars "Upload app apk")
      let sd1 : StepsData := ⟨sd0.step0 ++ [upCheck], sd0.step1, sd0.step2⟩
      let calls1 := calls0 ++ [Call.uploadApp]
      if upRes.isFailed then .ok (fail_no_analysis sd1, calls1, sd1)
      else process_from_install cfg env sd1 calls1
    else process_from_install cfg env sd0 calls0

/-!
## Analysis-side definitions

Predicates and projections used only to *state* properties of the embedded
functions: record-weight shape, the preparation-failure condition, and the
benign-oracle condition under which `process` cannot raise.
-/

/-- Weight shape of one step record as aggregation receives it: either the
    literal weight `0.0` that every record constructor passes, or no weight
    field at all (the reflection records, which also carry no check id). -/
def recWeightOk (r : JVal) : Prop :=
  jget r (chars "weight") = some (.num jzero)
  ∨ (jget r (chars "weight") = none ∧ jget r (chars "check_id") = none)

/-- Rational weight of a record (zero when the field is absent or not a
    number). -/
def recWeightRat (r : JVal) : ℚ :=
  match jget r (chars "weight") with
  | some (.num n) => n.toRat
  | _ => 0

/-- All step records of a run, in stage order. -/
def allRecords (sd : StepsData) : List JVal := sd.step0 ++ sd.step1 ++ sd.step2

/-- Shape of every record `_perform_action_once` can return: weight `0.0`,
    a check id, and a string `status`. -/
def actionRecShape (rec : JVal) : Prop :=
  jget rec (chars "weight") = some (.num jzero)
  ∧ (∃ cid, jget rec (chars "check_id") = some cid)
  ∧ (∃ s, jget rec (chars "status") = some (.str s))

/-- Whether any preparation sub-step of a run exhausts its retries. -/
def prepFailed (env : ProcEnv) : Bool :=
  (retry_call env.initAttempts 3).isFailed
  || (env.appIsLocal && (retry_call env.uploadAttempts 3).isFailed)
  || (retry_call env.installAttempts 3).isFailed
  || (retry_call env.runAttempts 2).isFailed

/-- Safety of the action text under `_perform_action_once`'s dispatch: the
    only uncaught exception there is `int()` on a two-element `Tap`
    argument list whose members are not integers. -/
def benignActionChars (t : List Char) : Bool :=
  let a := pyStrip t
  let low := toLowerL a
  if (chars "tap(").isPrefixOf low then
    match tapCoords a with
    | [x, y] => (pyInt? (pyStrip x)).isSome && (pyInt? (pyStrip y)).isSome
    | _ => true
  else true

/-- A vision-call outcome that cannot raise anywhere in the iteration: its
    parse does not raise, and a parsed verdict is a dict whose `action` is
    a dispatch-safe string and whose `reason` is a string. -/
def benignVisionOut (o : LLMOut) : Bool :=
  match o with
  | .response raw =>
    match strict_json_parse (pyStrip raw) keysVision with
    | .raised _ => false
    | .failed _ => true
    | .completed v =>
      v.isObj
      && (match jget v (chars "action") with
          | some (.str s) => benignActionChars (pyStrip s)
          | _ => false)
      && (match jget v (chars "reason") with
          | some (.str _) => true
          | _ => false)
  | _ => true

/-- An identification-call outcome that cannot raise: parse does not raise
    and a parsed verdict is a dict (its fields are only echoed). -/
def benignIdentOut (o : LLMOut) : Bool :=
  match o with
  | .response raw =>
    match strict_json_parse (pyStrip raw) keysIdent with
    | .raised _ => false
    | .failed _ => true
    | .completed v => v.isObj
  | _ => true

/-- A reflection-call outcome that cannot raise: parse does not raise and a
    parsed verdict is a dict whose optional `insight` is a string. -/
def benignReflectOut (o : LLMOut) : Bool :=
  match o with
  | .response raw =>
    match strict_json_parse (pyStrip raw) keysReflect with
    | .raised _ => false
    | .failed _ => true
    | .completed v =>
      match v with
      | .obj fs =>
        match ((fs.find? (fun p => p.1 == chars "insight")).map
            (fun p => p.2) : Option JVal) with
        | none => true
        | some (.str _) => true
        | some _ => false
      | _ => false
  | _ => true

/-- An aggregation-call outcome that cannot raise (its parsed value is
    returned to the caller unread). -/
def benignAggOut (o : LLMOut) : Bool :=
  match o with
  | .response raw =>
    match strict_json_parse (pyStrip raw) keysAgg with
    | .raised _ => false
    | _ => true
  | _ => true

/-- All oracle outcomes of one exploration iteration are benign. -/
def benignIter (it : IterOutcome) : Bool :=
  benignVisionOut it.vis1 && benignVisionOut it.vis2 && benignVisionOut it.vis3
    && benignReflectOut it.refl

/-- A successful run payload carries the `task_id` the worker subscripts. -/
def benignRun (env : ProcEnv) : Bool :=
  match retry_call env.runAttempts 2 with
  | .failed => true
  | .completed d =>
    match jget d (chars "task_id") with
    | some _ => true
    | none => false

/-- Benign environment: no oracle outcome anywhere in the run can raise. -/
def benignEnv (env : ProcEnv) : Bool :=
  benignRun env
    && benignIdentOut env.ident1 && benignIdentOut env.ident2
    && benignIdentOut env.ident3
    && env.iters.all benignIter
    && benignAggOut env.agg1 && benignAggOut env.agg2 && benignAggOut env.agg3

/-- Environment whose identification oracle answers with the bare JSON
    text `3`, everything else succeeding. -/
def envBad : ProcEnv :=
  { appIsLocal := false
    initAttempts := [.okPayload (.obj [])]
    uploadAttempts := []
    installAttempts := [.okPayload (.obj [])]
    runAttempts := [.okPayload (.obj [(chars "task_id", .str (chars "t1"))])]
    shot0 := .ok
    ident1 := .response (chars "3")
    ident2 := .netErr
    ident3 := .netErr
    iters := []
    agg1 := .response (chars "\x7b\"risk_level\": \"low\", \"confidence\": 1, \"reasons\": \x7b\x7d\x7d")
    agg2 := .netErr
    agg3 := .netErr }

/-- Environment in which every LLM call fails at the network level and
    every device call succeeds: no oracle outcome can raise. -/
def envGood : ProcEnv :=
  { appIsLocal := false
    initAttempts := [.okPayload (.obj [])]
    uploadAttempts := []
    installAttempts := [.okPayload (.obj [])]
    runAttempts := [.okPayload (.obj [(chars "task_id", .str (chars "t1"))])]
    shot0 := .ok
    ident1 := .netErr
    ident2 := .netErr
    ident3 := .netErr
    iters := []
    agg1 := .netErr
    agg2 := .netErr
    agg3 := .netErr }

/-- What benignness guarantees about a vision result in the exploration
    loop: a parsed verdict is a dict with its required keys, a
    dispatch-safe string action, and a string reason. -/
def visResGood (r : VRes) : Prop :=
  match r with
  | .failed _ => True
  | .completed v =>
    missingKeys? v keysVision = some false
    ∧ v.isObj = true
    ∧ (∃ s, jget v (chars "action") = some (.str s)
        ∧ benignActionChars (pyStrip s) = true)
    ∧ (∃ t, jget v (chars "reason") = some (.str t))

/-- What benignness guarantees about an identification result: a parsed
    verdict is a dict with its required keys. -/
def identResGood (r : VRes) : Prop :=
  match r with
  | .failed _ => True
  | .completed v => missingKeys? v keysIdent = some false ∧ v.isObj = true

/-!
## Concrete scenario data
-/

/-- Iteration outcome whose screenshot call fails with a network error
    (later stages of the iteration are never consulted). -/
def oShotFail : IterOutcome :=
  ⟨.netErr, .netErr, .netErr, .netErr, .netErr, .netErr, .netErr⟩

/-- Vision response for the consecutive-action-failure scenario: a
    well-formed JSON verdict whose suggested action is a tap. -/
def visTapRaw : List Char :=
  chars "\x7b\"risk_level\": \"low\", \"confidence\": 1, \"reason\": \"No suspicious UI\", \"action\": \"Tap(10,20)\"\x7d"

/-- Reflection response for the same scenario: a completed reflection with
    an insight. -/
def reflOkRaw : List Char :=
  chars "\x7b\"status\": \"completed\", \"risk_level\": \"low\", \"confidence\": 1, \"explanation\": \"as expected\", \"insight\": \"none seen\"\x7d"

/-- Iteration outcome in which screenshot and vision succeed, the suggested
    tap action fails on both HTTP attempts, and reflection succeeds. -/
def oActFail : IterOutcome :=
  ⟨.ok, .response visTapRaw, .netErr, .netErr, .netErr, .netErr,
    .response reflOkRaw⟩

/-!
## Theorems

Helper lemmas first, then one theorem per claim (with a witness when the
theorem carries hypotheses, and a counterexample where the claim fails on
the code).
-/

/-- The substring test agrees with the list-infix relation. -/
theorem containsSub_eq_true_iff (m : List Char) :
    ∀ hay, containsSub hay m = true ↔ m <:+: hay := by
  intro hay
  induction hay with
  | nil =>
    simp only [containsSub, findSub]
    by_cases h : m = []
    · simp [h]
    · simp [h, List.infix_nil]
  | cons c rest ih =>
    unfold containsSub at ih ⊢
    simp only [findSub]
    by_cases h : m.isPrefixOf (c :: rest)
    · rw [if_pos h]
      simp only [Option.isSome_some, true_iff]
      exact (List.isPrefixOf_iff_prefix.mp h).isInfix
    · rw [if_neg h]
      have hmap : (Option.map (fun x => x + 1) (findSub m rest)).isSome
          = (findSub m rest).isSome := by
        cases findSub m rest <;> rfl
      rw [hmap, ih, List.infix_cons_iff]
      have hnp : ¬ m <+: (c :: rest) := fun hp => h (List.isPrefixOf_iff_prefix.mpr hp)
      tauto

/-- C8.  Memory update is idempotent and append-only: a disabled switch, a
    whitespace-only insight, or an insight already contained in memory
    leaves memory unchanged; otherwise the insight plus a newline is
    appended; applying the same insight twice equals applying it once; and
    the old memory is always a prefix of the new memory. -/
theorem update_memory_idempotent_append_only
    (enabled : Bool) (memory insight : List Char) :
    update_memory enabled (update_memory enabled memory insight) insight
        = update_memory enabled memory insight
  ∧ memory <+: update_memory enabled memory insight
  ∧ (enabled = false → update_memory enabled memory insight = memory)
  ∧ (pyStrip insight = [] → update_memory enabled memory insight = memory)
  ∧ (containsSub memory insight = true →
      update_memory enabled memory insight = memory)
  ∧ (enabled = true → pyStrip insight ≠ [] → containsSub memory insight = false →
      update_memory enabled memory insight = memory ++ insight ++ ['\n']) := by
  have happend :
      containsSub (memory ++ insight ++ ['\n']) insight = true := by
    rw [containsSub_eq_true_iff]
    exact List.infix_append memory insight ['\n']
  have happend' :
      containsSub (memory ++ (insight ++ ['\n'])) insight = true := by
    have := happend
    rwa [List.append_assoc] at this
  constructor
  · -- idempotence
    by_cases he : enabled
    · by_cases hs : pyStrip insight = []
      · simp [update_memory, he, hs]
      · by_cases hc : containsSub memory insight
        · simp [update_memory, he, hs, hc]
        · simp [update_memory, he, hs, hc, happend, happend']
    · have : enabled = false := by revert he; cases enabled <;> simp
      simp [update_memory, this]
  refine ⟨?_, ?_, ?_, ?_, ?_⟩
  · -- old memory is a prefix of the new memory
    by_cases he : enabled
    · by_cases hs : pyStrip insight = []
      · simp [update_memory, he, hs]
      · by_cases hc : containsSub memory insight
        · simp [update_memory, he, hs, hc]
        · simp only [update_memory, he, Bool.not_true, Bool.false_eq_true,
            if_false, hs, hc, Bool.not_false, ne_eq, not_false_iff,
            and_true, if_true, true_and]
          rw [List.append_assoc]
          exact List.prefix_append memory (insight ++ ['\n'])
    · have : enabled = false := by revert he; cases enabled <;> simp
      simp [update_memory, this]
  · intro h; simp [update_memory, h]
  · intro h; by_cases he : enabled <;> simp [update_memory, he, h]
  · intro h; by_cases he : enabled <;> simp [update_memory, he, h]
  · intro he hs hc; simp [update_memory, he, hs, hc]

/-- C8 witness: the theorem applied at a concrete enabled update whose
    insight is new, yielding the append equation. -/
theorem update_memory_idempotent_append_only_witness :
    update_memory true (chars "abc") (chars "xy")
      = chars "abc" ++ chars "xy" ++ ['\n'] :=
  (update_memory_idempotent_append_only true (chars "abc")
    (chars "xy")).2.2.2.2.2 rfl (by decide) (by decide)

/-- C2 counterexample: with two new entries in the before/after diff,
    `install_app` does *not* fail — it returns a guessed package name (the
    popped entry's name), contradicting the claimed hard error for a diff
    of size two or more. -/
theorem install_app_two_new_entries_counterexample :
    exceptIsError (install_app ⟨[chars "emulator:5554"], []⟩ (chars "bad.apk")
      (chars "Success")
      []
      [chars "package:/data/app/~~a/base.apk=com.example.alpha",
       chars "package:/data/app/~~b/base.apk=com.example.beta"]) = false
  ∧ detect_new_package
      []
      [chars "package:/data/app/~~a/base.apk=com.example.alpha",
       chars "package:/data/app/~~b/base.apk=com.example.beta"]
      = .ok (chars "com.example.alpha") :=
  ⟨rfl, rfl⟩

/-- C2 amended: an empty diff is a hard error; a diff with one *or more*
    entries makes `_detect_new_package` take one new entry (the set pop,
    here the first in listing order) and return the substring after
    `'base.apk='` in it, erring only when the marker is absent or the name
    empty; on a cache miss with a successful adb install, `install_app`
    returns exactly that name and caches it. -/
theorem install_app_diff_amended (st : EmuEnv) (app_ref out : List Char)
    (before after : List (List Char)) :
    (new_package_lines before after = [] →
      detect_new_package before after
        = .error (chars "Failed to detect newly installed package. No new packages found."))
  ∧ (∀ l rest, new_package_lines before after = l :: rest →
      detect_new_package before after = extract_pkg_name l)
  ∧ (pyStrip app_ref ≠ [] →
      st.endpoints ≠ [] →
      st.app_package_cache.find? (fun p => p.1 == pyStrip app_ref) = none →
      containsSub out (chars "Success") = true →
      ∀ pkg, detect_new_package before after = .ok pkg →
      install_app st app_ref out before after
        = .ok (pkg, { st with
            app_package_cache := st.app_package_cache
              ++ [(pyStrip app_ref, pkg)] })) := by
  refine ⟨?_, ?_, ?_⟩
  · intro h
    unfold detect_new_package
    rw [h]
  · intro l rest h
    unfold detect_new_package
    rw [h]
  · intro h1 h2 h3 h4 pkg h5
    unfold install_app
    rw [if_neg h1, if_neg h2, h3, h4]
    simp only [Bool.not_true, Bool.false_eq_true, if_false, h5]

/-- C2 witness: the amended theorem applied to a one-entry diff, returning
    the post-marker package name and caching it. -/
theorem install_app_diff_amended_witness :
    install_app ⟨[chars "emulator:5554"], []⟩ (chars "good.apk")
      (chars "Success")
      [chars "package:/base.apk=com.old"]
      [chars "package:/base.apk=com.old", chars "package:/n/base.apk=com.new"]
      = .ok (chars "com.new",
          ⟨[chars "emulator:5554"], [(chars "good.apk", chars "com.new")]⟩) :=
  (install_app_diff_amended ⟨[chars "emulator:5554"], []⟩ (chars "good.apk")
      (chars "Success")
      [chars "package:/base.apk=com.old"]
      [chars "package:/base.apk=com.old",
       chars "package:/n/base.apk=com.new"]).2.2
    (by decide) (by decide) rfl rfl (chars "com.new") rfl

/-- C10.  `run_app` only launches previously installed apps: an `app_ref`
    absent from the package cache makes `run_app` raise (the unguarded
    cache subscript) instead of returning a run handle, whatever the
    endpoints, launch outputs, or screenshot outcome; and a successful
    `init_device` always leaves the package cache empty. -/
theorem run_app_requires_cached_install (st : EmuEnv)
    (app_ref monkey_out start_out : List Char) (cap : Bool)
    (hmiss : st.app_package_cache.find? (fun p => p.1 == app_ref) = none) :
    exceptIsError (run_app st app_ref monkey_out start_out cap) = true
  ∧ ∀ st' prov st'', init_device st' prov = .ok st'' →
      st''.app_package_cache = [] := by
  constructor
  · unfold run_app
    by_cases he : st.endpoints = []
    · rw [if_pos he]; rfl
    · rw [if_neg he, hmiss]; rfl
  · intro st' prov st'' h
    unfold init_device at h
    by_cases hp : prov = []
    · rw [if_pos (by simp [hp])] at h
      cases h
    · rw [if_neg (by simp [hp])] at h
      simp only [Except.ok.injEq] at h
      rw [← h]

/-- C10 witness: a cache-miss launch on a live endpoint raises. -/
theorem run_app_requires_cached_install_witness :
    exceptIsError (run_app ⟨[chars "emulator:5554"], []⟩ (chars "a.apk")
      [] [] true) = true :=
  (run_app_requires_cached_install ⟨[chars "emulator:5554"], []⟩
    (chars "a.apk") [] [] true rfl).1

/-- C3 counterexample.  A JSON object embedded in prose does not in general
    succeed in tier 2: with two objects in the text the code's greedy
    first-to-last-brace span is not valid JSON and parsing fails, while the
    parser described by the specification (first *balanced* block) succeeds;
    and the no-block error is one fixed message that cannot be carrying the
    raw response, since two different raw responses yield equal results. -/
theorem strict_parse_counterexample :
    (strict_json_parse
      (chars "x \x7b\"a\": 1\x7d y \x7b\"b\": 2\x7d z") [chars "a"]).isCompleted
        = false
  ∧ (spec_two_tier_parse
      (chars "x \x7b\"a\": 1\x7d y \x7b\"b\": 2\x7d z") [chars "a"]).isCompleted
        = true
  ∧ strict_json_parse (chars "no braces here") []
      = strict_json_parse (chars "totally different text") [] :=
  ⟨rfl, rfl, rfl⟩

/-- C3 amended: bare valid JSON with all required keys present (under
    Python's `in` membership) succeeds in tier 1; when tier 1 fails, tier 2
    parses the greedy span from the first opening brace to the last closing
    brace — not the first balanced block — succeeding exactly when that
    whole stripped span is valid JSON with the keys; with no such span the
    parser returns the fixed `"LLM response not valid JSON"` error dict,
    which does not include the raw response. -/
theorem strict_parse_amended (raw : List Char) (keys : List (List Char)) :
    (∀ v, json_loads raw = some v → missingKeys? v keys = some false →
      strict_json_parse raw keys = .completed v)
  ∧ (json_loads raw = none → regexBraceBlock raw = none →
      strict_json_parse raw keys = .failed (chars "LLM response not valid JSON"))
  ∧ (∀ b v, json_loads raw = none → regexBraceBlock raw = some b →
      json_loads (pyStrip b) = some v → missingKeys? v keys = some false →
      strict_json_parse raw keys = .completed v) := by
  refine ⟨?_, ?_, ?_⟩
  · intro v h1 h2
    unfold strict_json_parse
    simp only [h1, h2]
  · intro h1 h2
    unfold strict_json_parse
    simp only [h1, h2]
  · intro b v h1 h2 h3 h4
    unfold strict_json_parse
    simp only [h1, h2, h3, h4]

/-- C3 witness: tier 1 of the amended theorem at a bare JSON object. -/
theorem strict_parse_amended_witness :
    strict_json_parse (chars "\x7b\"a\": 1\x7d") [chars "a"]
      = .completed (.obj [(chars "a", .num ⟨1, 0⟩)]) :=
  (strict_parse_amended (chars "\x7b\"a\": 1\x7d") [chars "a"]).1
    (.obj [(chars "a", .num ⟨1, 0⟩)]) rfl rfl

/-- Counters and the previous-screenshot flag are untouched by the insight
    memory update. -/
theorem applyReflectInsight_counters (cfg : Cfg) (rrec : JVal) (st st' : ExpSt)
    (h : applyReflectInsight cfg rrec st = .ok st') :
    st'.total_errors = st.total_errors
  ∧ st'.consecutive_errors = st.consecutive_errors
  ∧ st'.has_prev_shot = st.has_prev_shot := by
  unfold applyReflectInsight at h
  split at h
  · simp only [Except.ok.injEq] at h
    rw [← h]; exact ⟨rfl, rfl, rfl⟩
  · simp only [Except.ok.injEq] at h
    rw [← h]; exact ⟨rfl, rfl, rfl⟩
  · cases h

/-- Action phase: a break only happens with the budget exceeded, and
    `total_errors` never decreases. -/
theorem explorePhaseAction_props (cfg : Cfg) (p : Bool) (a : List Char)
    (o1 o2 : ActOut) (st st' : ExpSt) (recs : List JVal) (broke : Bool)
    (h : explorePhaseAction cfg p a o1 o2 st = .ok (st', recs, broke)) :
    (broke = true → budgetExceeded cfg st' = true)
  ∧ st.total_errors ≤ st'.total_errors := by
  unfold explorePhaseAction at h
  split at h
  · simp only [Except.ok.injEq, Prod.mk.injEq] at h
    obtain ⟨h1, _h2, h3⟩ := h
    subst h1
    constructor
    · intro hb; rw [← h3] at hb; cases hb
    · exact le_refl _
  · split at h
    · cases h
    · split at h
      · cases h
      · split at h
        · simp only [Except.ok.injEq, Prod.mk.injEq] at h
          obtain ⟨h1, _h2, h3⟩ := h
          subst h1
          constructor
          · intro hb; rw [h3]; exact hb
          · simp [stageError]
        · simp only [Except.ok.injEq, Prod.mk.injEq] at h
          obtain ⟨h1, _h2, h3⟩ := h
          subst h1
          constructor
          · intro hb; rw [← h3] at hb; cases hb
          · simp [stageSuccess]

/-- Reflection phase: a break only happens with the budget exceeded, and
    `total_errors` never decreases. -/
theorem explorePhaseReflect_props (cfg : Cfg) (p : Bool) (o : LLMOut)
    (st st' : ExpSt) (recs : List JVal) (broke : Bool)
    (h : explorePhaseReflect cfg p o st = .ok (st', recs, broke)) :
    (broke = true → budgetExceeded cfg st' = true)
  ∧ st.total_errors ≤ st'.total_errors := by
  unfold explorePhaseReflect at h
  split at h
  · simp only [Except.ok.injEq, Prod.mk.injEq] at h
    obtain ⟨h1, _h2, h3⟩ := h
    subst h1
    constructor
    · intro hb; rw [← h3] at hb; cases hb
    · exact le_refl _
  · split at h
    · split at h
      · cases h
      · split at h
        · cases h
        · split at h
          · split at h
            · rename_i hbud
              simp only [Except.ok.injEq, Prod.mk.injEq] at h
              obtain ⟨h1, _h2, h3⟩ := h
              subst h1
              constructor
              · intro _; exact hbud
              · simp [stageError]
            · simp only [Except.ok.injEq, Prod.mk.injEq] at h
              obtain ⟨h1, _h2, h3⟩ := h
              subst h1
              constructor
              · intro hb; rw [← h3] at hb; cases hb
              · simp [stageError]
          · split at h
            · cases h
            · rename_i st'' hins
              simp only [Except.ok.injEq, Prod.mk.injEq] at h
              obtain ⟨h1, _h2, h3⟩ := h
              subst h1
              have hc := applyReflectInsight_counters _ _ _ _ hins
              constructor
              · intro hb; rw [← h3] at hb; cases hb
              · show st.total_errors ≤ st''.total_errors
                rw [hc.1]
                simp [stageSuccess]
    · simp only [Except.ok.injEq, Prod.mk.injEq] at h
      obtain ⟨h1, _h2, h3⟩ := h
      subst h1
      constructor
      · intro hb; rw [← h3] at hb; cases hb
      · exact le_refl _

/-- Memory phase: both error counters are untouched. -/
theorem explorePhaseMemory_counters (cfg : Cfg) (vr : JVal) (st st' : ExpSt)
    (h : explorePhaseMemory cfg vr st = .ok st') :
    st'.total_errors = st.total_errors
  ∧ st'.consecutive_errors = st.consecutive_errors := by
  unfold explorePhaseMemory at h
  split at h
  · simp only [Except.ok.injEq] at h; rw [← h]; exact ⟨rfl, rfl⟩
  · split at h
    · cases h
    · split at h
      · cases h
      · simp only [Except.ok.injEq] at h; rw [← h]; exact ⟨rfl, rfl⟩
      · split at h
        · simp only [Except.ok.injEq] at h; rw [← h]; exact ⟨rfl, rfl⟩
        · cases h

/-- One exploration iteration: the break flag is exactly the budget test on
    the state the iteration produced (the loop can only break the instant a
    threshold is exceeded), and `total_errors` never decreases. -/
theorem exploreIter_props (cfg : Cfg) (o : IterOutcome) (st0 st' : ExpSt)
    (b : Bool) (recs : List JVal)
    (h : exploreIter cfg o st0 = .ok (st', b, recs)) :
    b = budgetExceeded cfg st' ∧ st0.total_errors ≤ st'.total_errors := by
  simp only [exploreIter] at h
  split at h
  · simp only [Except.ok.injEq, Prod.mk.injEq] at h
    obtain ⟨h1, h2, _h3⟩ := h
    subst h1
    exact ⟨h2.symm, by simp [stageError]⟩
  · split at h
    · cases h
    · split at h
      · cases h
      · split at h
        · simp only [Except.ok.injEq, Prod.mk.injEq] at h
          obtain ⟨h1, h2, _h3⟩ := h
          subst h1
          exact ⟨h2.symm, by simp [stageError, stageSuccess]⟩
        · split at h
          · cases h
          · -- action value is a string: the main path
            split at h
            · cases h
            · rename_i stA recsA brokeA hact
              have hA := explorePhaseAction_props _ _ _ _ _ _ _ _ _ hact
              cases brokeA with
              | true =>
                rw [if_pos rfl] at h
                simp only [Except.ok.injEq, Prod.mk.injEq] at h
                obtain ⟨h1, h2, _h3⟩ := h
                subst h1
                refine ⟨?_, le_trans (by simp [stageSuccess]) hA.2⟩
                rw [← h2]
                exact (hA.1 rfl).symm
              | false =>
                rw [if_neg Bool.false_ne_true] at h
                split at h
                · cases h
                · rename_i stR recsR brokeR hrefl
                  have hR := explorePhaseReflect_props _ _ _ _ _ _ _ hrefl
                  cases brokeR with
                  | true =>
                    rw [if_pos rfl] at h
                    simp only [Except.ok.injEq, Prod.mk.injEq] at h
                    obtain ⟨h1, h2, _h3⟩ := h
                    subst h1
                    refine ⟨?_, le_trans (by simp [stageSuccess])
                      (le_trans hA.2 hR.2)⟩
                    rw [← h2]
                    exact (hR.1 rfl).symm
                  | false =>
                    rw [if_neg Bool.false_ne_true] at h
                    split at h
                    · cases h
                    · rename_i st3 hmem
                      have hM := explorePhaseMemory_counters _ _ _ _ hmem
                      simp only [Except.ok.injEq, Prod.mk.injEq] at h
                      obtain ⟨h1, h2, _h3⟩ := h
                      subst h1
                      refine ⟨h2.symm, ?_⟩
                      rw [hM.1]
                      exact le_trans (by simp [stageSuccess])
                        (le_trans hA.2 hR.2)
          · cases h

/-- Every state at which the loop begins an iteration satisfies the budget
    condition negatively: the loop never runs an iteration after a
    threshold has been exceeded. -/
theorem exploreStarts_not_exceeded (cfg : Cfg) :
    ∀ (outs : List IterOutcome) (st : ExpSt),
      budgetExceeded cfg st = false →
      ∀ s ∈ exploreStarts cfg outs st, budgetExceeded cfg s = false := by
  intro outs
  induction outs with
  | nil =>
    intro st h s hs
    simp [exploreStarts] at hs
  | cons o rest ih =>
    intro st h s hs
    simp only [exploreStarts] at hs
    rcases List.mem_cons.mp hs with rfl | hm
    · exact h
    · rcases hq : exploreIter cfg o st with e | v
      · rw [hq] at hm; simp at hm
      · obtain ⟨st', bfl, recs⟩ := v
        rw [hq] at hm
        cases bfl with
        | true => simp at hm
        | false =>
          have hps := (exploreIter_props cfg o st st' false recs hq).1
          exact ih st' hps.symm s hm

/-- When the loop stops before exhausting the admitted iterations, the
    final state has the budget exceeded. -/
theorem exploreLoop_early_stop (cfg : Cfg) :
    ∀ (outs : List IterOutcome) (st fin : ExpSt) (recs : List JVal) (k : Nat),
      exploreLoop cfg outs st = .ok (fin, recs, k) →
      k < outs.length → budgetExceeded cfg fin = true := by
  intro outs
  induction outs with
  | nil =>
    intro st fin recs k h hk
    simp only [exploreLoop, Except.ok.injEq, Prod.mk.injEq] at h
    simp only [List.length_nil] at hk
    omega
  | cons o rest ih =>
    intro st fin recs k h hk
    simp only [exploreLoop] at h
    split at h
    · cases h
    · rename_i st' brokev recs' heq
      cases brokev with
      | true =>
        rw [if_pos rfl] at h
        simp only [Except.ok.injEq, Prod.mk.injEq] at h
        obtain ⟨h1, _h2, _h3⟩ := h
        subst h1
        exact ((exploreIter_props cfg o st st' true recs' heq).1).symm
      | false =>
        rw [if_neg Bool.false_ne_true] at h
        split at h
        · cases h
        · rename_i fin2 recs2 k2 heq2
          simp only [Except.ok.injEq, Prod.mk.injEq] at h
          obtain ⟨h1, _h2, h3⟩ := h
          subst h1
          apply ih st' _ _ k2 heq2
          simp only [List.length_cons] at hk
          omega

/-- `total_errors` is monotone across the whole loop. -/
theorem exploreLoop_total_mono (cfg : Cfg) :
    ∀ (outs : List IterOutcome) (st fin : ExpSt) (recs : List JVal) (k : Nat),
      exploreLoop cfg outs st = .ok (fin, recs, k) →
      st.total_errors ≤ fin.total_errors := by
  intro outs
  induction outs with
  | nil =>
    intro st fin recs k h
    simp only [exploreLoop, Except.ok.injEq, Prod.mk.injEq] at h
    obtain ⟨h1, _⟩ := h
    subst h1
    exact le_refl _
  | cons o rest ih =>
    intro st fin recs k h
    simp only [exploreLoop] at h
    split at h
    · cases h
    · rename_i st' brokev recs' heq
      have hit := (exploreIter_props cfg o st st' brokev recs' heq).2
      cases brokev with
      | true =>
        rw [if_pos rfl] at h
        simp only [Except.ok.injEq, Prod.mk.injEq] at h
        obtain ⟨h1, _⟩ := h
        subst h1
        exact hit
      | false =>
        rw [if_neg Bool.false_ne_true] at h
        split at h
        · cases h
        · rename_i fin2 recs2 k2 heq2
          simp only [Except.ok.injEq, Prod.mk.injEq] at h
          obtain ⟨h1, _⟩ := h
          subst h1
          exact le_trans hit (ih st' _ _ _ heq2)

/-- C1.  For every configuration pair and every sequence of stage outcomes
    (the outcome-list length is exactly the number of iterations the
    wall-clock budget admits), the exploration loop exits at the first
    point where `total_errors > max_total OR consecutive_errors >
    max_consecutive` becomes true: every iteration's break flag equals the
    budget test on the state it produced, no iteration ever begins in an
    exceeded state, and any stop before the time budget is exhausted
    happens with the budget exceeded. -/
theorem explore_loop_budget_exit (cfg : Cfg) (outs : List IterOutcome) :
    (∀ o st st' bfl recs, exploreIter cfg o st = .ok (st', bfl, recs) →
      bfl = budgetExceeded cfg st')
  ∧ (∀ s ∈ exploreStarts cfg outs expInit, budgetExceeded cfg s = false)
  ∧ (∀ fin recs k, exploreLoop cfg outs expInit = .ok (fin, recs, k) →
      k < outs.length → budgetExceeded cfg fin = true) := by
  refine ⟨?_, ?_, ?_⟩
  · intro o st st' bfl recs h
    exact (exploreIter_props cfg o st st' bfl recs h).1
  · intro s hs
    refine exploreStarts_not_exceeded cfg outs expInit ?_ s hs
    simp [budgetExceeded, expInit]
  · intro fin recs k h hk
    exact exploreLoop_early_stop cfg outs expInit fin recs k h hk

/-- C1 witness: an iteration whose screenshot fails under the default
    budgets produces break flag `false`, equal to the budget test on the
    resulting one-error state. -/
theorem explore_loop_budget_exit_witness :
    false = budgetExceeded cfgDefault ⟨1, 1, 1, false, []⟩ :=
  (explore_loop_budget_exit cfgDefault []).1 oShotFail expInit
    ⟨1, 1, 1, false, []⟩ false
    [make_screenshot_check (chars "check_2_explore_shot_1") jzero
      (.failed (chars "Net error screenshot"))
      (chars "Exploration screenshot #1")] rfl

/-- C7.  Every successful stage sets `consecutive_errors` to 0 whatever its
    prior value and leaves `total_errors` unchanged; every error stage
    increments both; and `total_errors` is monotone across any iteration
    and across the whole loop — it is never reset or decreased. -/
theorem stage_success_resets_and_total_monotone (cfg : Cfg) :
    (∀ st, (stageSuccess st).consecutive_errors = 0)
  ∧ (∀ st, (stageSuccess st).total_errors = st.total_errors)
  ∧ (∀ st, (stageError st).total_errors = st.total_errors + 1
        ∧ (stageError st).consecutive_errors = st.consecutive_errors + 1)
  ∧ (∀ o st st' bfl recs, exploreIter cfg o st = .ok (st', bfl, recs) →
      st.total_errors ≤ st'.total_errors)
  ∧ (∀ outs st fin recs k, exploreLoop cfg outs st = .ok (fin, recs, k) →
      st.total_errors ≤ fin.total_errors) := by
  refine ⟨fun _ => rfl, fun _ => rfl, fun _ => ⟨rfl, rfl⟩, ?_, ?_⟩
  · intro o st st' bfl recs h
    exact (exploreIter_props cfg o st st' bfl recs h).2
  · intro outs st fin recs k h
    exact exploreLoop_total_mono cfg outs st fin recs k h

/-- C7 witness: monotonicity applied to the concrete failing-screenshot
    iteration. -/
theorem stage_success_resets_and_total_monotone_witness :
    (expInit : ExpSt).total_errors
      ≤ (⟨1, 1, 1, false, []⟩ : ExpSt).total_errors :=
  (stage_success_resets_and_total_monotone cfgDefault).2.2.2.1 oShotFail
    expInit ⟨1, 1, 1, false, []⟩ false
    [make_screenshot_check (chars "check_2_explore_shot_1") jzero
      (.failed (chars "Net error screenshot"))
      (chars "Exploration screenshot #1")] rfl

/-- C6 counterexample.  With `max_consecutive_errors = 3` (defaults
    otherwise) and sixteen consecutive iterations whose tap action fails
    while every other stage succeeds, the loop does *not* terminate after
    the 4th consecutive failure: offered only five such iterations it runs
    all five and keeps going, and offered sixteen it runs all sixteen. -/
theorem sixteen_action_failures_counterexample :
    (exploreLoop cfgDefault (List.replicate 5 oActFail) expInit).map
        (fun r => r.2.2) = .ok 5
  ∧ (exploreLoop cfgDefault (List.replicate 16 oActFail) expInit).map
        (fun r => r.2.2) = .ok 16 :=
  ⟨rfl, rfl⟩

/-- C6 amended.  In that scenario `consecutive_errors` never exceeds 1 —
    each iteration's successful screenshot, vision, and reflection stages
    reset it before the next action failure — so the consecutive budget
    never fires; the loop instead stops via the *total* budget: the 16th
    failure pushes `total_errors` to 16 > 15 and the loop breaks on the
    spot, i.e. after the 16th consecutive failure, not the 4th. -/
theorem sixteen_action_failures_amended :
    (exploreLoop cfgDefault (List.replicate 16 oActFail) expInit).map
        (fun r => (r.1.total_errors, r.1.consecutive_errors, r.2.2))
      = .ok (16, 1, 16)
  ∧ (exploreStarts cfgDefault (List.replicate 16 oActFail) expInit).all
        (fun st => st.consecutive_errors ≤ 1) = true :=
  ⟨rfl, rfl⟩

/-- Fields of a `_make_check_entry` record: the weight passed in, and the
    check id. -/
theorem make_check_entry_fields (cid ag : List Char) (w : JNum)
    (r : RetryRes) (ex : List Char) :
    jget (make_check_entry cid ag w r ex) (chars "weight") = some (.num w)
  ∧ jget (make_check_entry cid ag w r ex) (chars "check_id")
      = some (.str cid) := by
  cases r <;> exact ⟨rfl, rfl⟩

/-- Fields of a `_make_screenshot_check` record. -/
theorem make_screenshot_check_fields (cid : List Char) (w : JNum)
    (r : ShotRes) (ex : List Char) :
    jget (make_screenshot_check cid w r ex) (chars "weight") = some (.num w)
  ∧ jget (make_screenshot_check cid w r ex) (chars "check_id")
      = some (.str cid) := by
  cases r <;> exact ⟨rfl, rfl⟩

/-- Fields of a `_make_vision_check` record, when it returns one. -/
theorem make_vision_check_fields (cid : List Char) (w : JNum) (res : VRes)
    (ex : List Char) (rec : JVal)
    (h : make_vision_check cid w res ex = .ok rec) :
    jget rec (chars "weight") = some (.num w)
  ∧ jget rec (chars "check_id") = some (.str cid) := by
  unfold make_vision_check at h
  split at h
  · simp only [Except.ok.injEq] at h
    rw [← h]; exact ⟨rfl, rfl⟩
  · split at h
    · cases h
    · split at h
      · cases h
      · split at h
        · cases h
        · simp only [Except.ok.injEq] at h
          rw [← h]; exact ⟨rfl, rfl⟩

/-- Every record an action-endpoint dispatch returns has the action-record
    shape. -/
theorem action_network_shape (low a : List Char) (o : ActOut) :
    actionRecShape (action_network low a o) := by
  cases o
  · exact ⟨rfl, ⟨_, rfl⟩, ⟨_, rfl⟩⟩
  · exact ⟨rfl, ⟨_, rfl⟩, ⟨_, rfl⟩⟩
  · exact ⟨rfl, ⟨_, rfl⟩, ⟨_, rfl⟩⟩
  · exact ⟨rfl, ⟨_, rfl⟩, ⟨_, rfl⟩⟩

/-- Every record `_perform_action_once` returns has the action-record
    shape. -/
theorem perform_action_once_shape (t : List Char) (o : ActOut) (rec : JVal)
    (h : perform_action_once t o = .ok rec) : actionRecShape rec := by
  simp only [perform_action_once] at h
  repeat' split at h
  all_goals try cases h
  all_goals try (simp only [Except.ok.injEq] at h; subst h)
  all_goals
    first
      | exact action_network_shape _ _ _
      | exact ⟨rfl, ⟨_, rfl⟩, ⟨_, rfl⟩⟩

/-- Every record `_perform_action_with_retry` returns has the action-record
    shape. -/
theorem perform_action_with_retry_shape (t : List Char) (o1 o2 : ActOut)
    (rec : JVal) (h : perform_action_with_retry t o1 o2 = .ok rec) :
    actionRecShape rec := by
  unfold perform_action_with_retry at h
  split at h
  · cases h
  · rename_i r1 h1
    split at h
    · cases h
    · split at h
      · simp only [Except.ok.injEq] at h
        subst h
        exact perform_action_once_shape _ _ _ h1
      · exact perform_action_once_shape _ _ _ h

/-- Records returned by `_reflect_on_change` carry neither a weight nor a
    check id, and always carry a string `status`. -/
theorem reflect_on_change_shape (o : LLMOut) (rec : JVal)
    (h : reflect_on_change o = .ok rec) :
    jget rec (chars "weight") = none
  ∧ jget rec (chars "check_id") = none
  ∧ (∃ s, jget rec (chars "status") = some (.str s)) := by
  unfold reflect_on_change at h
  repeat' split at h
  all_goals try cases h
  all_goals try (simp only [Except.ok.injEq] at h; subst h)
  all_goals exact ⟨rfl, rfl, ⟨_, rfl⟩⟩

/-- Records appended by the action phase all have the action-record shape. -/
theorem explorePhaseAction_recs (cfg : Cfg) (p : Bool) (a : List Char)
    (o1 o2 : ActOut) (st st' : ExpSt) (recs : List JVal) (broke : Bool)
    (h : explorePhaseAction cfg p a o1 o2 st = .ok (st', recs, broke)) :
    ∀ r ∈ recs, actionRecShape r := by
  unfold explorePhaseAction at h
  split at h
  · simp only [Except.ok.injEq, Prod.mk.injEq] at h
    obtain ⟨_, h2, _⟩ := h
    intro r hr
    rw [← h2] at hr
    simp at hr
  · split at h
    · cases h
    · rename_i ar har
      split at h
      · cases h
      · split at h
        · simp only [Except.ok.injEq, Prod.mk.injEq] at h
          obtain ⟨_, h2, _⟩ := h
          intro r hr
          rw [← h2] at hr
          simp only [List.mem_singleton] at hr
          subst hr
          exact perform_action_with_retry_shape _ _ _ _ har
        · simp only [Except.ok.injEq, Prod.mk.injEq] at h
          obtain ⟨_, h2, _⟩ := h
          intro r hr
          rw [← h2] at hr
          simp only [List.mem_singleton] at hr
          subst hr
          exact perform_action_with_retry_shape _ _ _ _ har

/-- Records appended by the reflection phase carry no weight and no check
    id. -/
theorem explorePhaseReflect_recs (cfg : Cfg) (p : Bool) (o : LLMOut)
    (st st' : ExpSt) (recs : List JVal) (broke : Bool)
    (h : explorePhaseReflect cfg p o st = .ok (st', recs, broke)) :
    ∀ r ∈ recs, jget r (chars "weight") = none
      ∧ jget r (chars "check_id") = none := by
  unfold explorePhaseReflect at h
  split at h
  · simp only [Except.ok.injEq, Prod.mk.injEq] at h
    obtain ⟨_, h2, _⟩ := h
    intro r hr
    rw [← h2] at hr
    simp at hr
  · split at h
    · split at h
      · cases h
      · rename_i rrec hrec
        have hs := reflect_on_change_shape _ _ hrec
        split at h
        · cases h
        · split at h
          · split at h
            · simp only [Except.ok.injEq, Prod.mk.injEq] at h
              obtain ⟨_, h2, _⟩ := h
              intro r hr
              rw [← h2] at hr
              simp only [List.mem_singleton] at hr
              subst hr
              exact ⟨hs.1, hs.2.1⟩
            · simp only [Except.ok.injEq, Prod.mk.injEq] at h
              obtain ⟨_, h2, _⟩ := h
              intro r hr
              rw [← h2] at hr
              simp only [List.mem_singleton] at hr
              subst hr
              exact ⟨hs.1, hs.2.1⟩
          · split at h
            · cases h
            · simp only [Except.ok.injEq, Prod.mk.injEq] at h
              obtain ⟨_, h2, _⟩ := h
              intro r hr
              rw [← h2] at hr
              simp only [List.mem_singleton] at hr
              subst hr
              exact ⟨hs.1, hs.2.1⟩
    · simp only [Except.ok.injEq, Prod.mk.injEq] at h
      obtain ⟨_, h2, _⟩ := h
      intro r hr
      rw [← h2] at hr
      simp at hr

/-- Every record one exploration iteration appends is weight-0.0 or (for a
    reflection result) weight-free and id-free. -/
theorem exploreIter_recs (cfg : Cfg) (o : IterOutcome) (st0 st' : ExpSt)
    (b : Bool) (recs : List JVal)
    (h : exploreIter cfg o st0 = .ok (st', b, recs)) :
    ∀ r ∈ recs, recWeightOk r := by
  simp only [exploreIter] at h
  split at h
  · simp only [Except.ok.injEq, Prod.mk.injEq] at h
    obtain ⟨_, _, h3⟩ := h
    intro r hr
    rw [← h3] at hr
    have := List.mem_singleton.mp hr
    subst this
    exact Or.inl (make_screenshot_check_fields _ _ _ _).1
  · split at h
    · cases h
    · split at h
      · cases h
      · rename_i vc hvc
        have hvcw := make_vision_check_fields _ _ _ _ _ hvc
        split at h
        · simp only [Except.ok.injEq, Prod.mk.injEq] at h
          obtain ⟨_, _, h3⟩ := h
          intro r hr
          rw [← h3] at hr
          rcases List.mem_cons.mp hr with rfl | hr2
          · exact Or.inl (make_screenshot_check_fields _ _ _ _).1
          · have := List.mem_singleton.mp hr2
            subst this
            exact Or.inl hvcw.1
        · split at h
          · cases h
          · split at h
            · cases h
            · rename_i stA recsA brokeA hact
              have hA := explorePhaseAction_recs _ _ _ _ _ _ _ _ _ hact
              cases brokeA with
              | true =>
                rw [if_pos rfl] at h
                simp only [Except.ok.injEq, Prod.mk.injEq] at h
                obtain ⟨_, _, h3⟩ := h
                intro r hr
                rw [← h3] at hr
                rcases List.mem_append.mp hr with h12 | hA2
                · rcases List.mem_cons.mp h12 with rfl | h2
                  · exact Or.inl (make_screenshot_check_fields _ _ _ _).1
                  · have := List.mem_singleton.mp h2
                    subst this
                    exact Or.inl hvcw.1
                · exact Or.inl (hA r hA2).1
              | false =>
                rw [if_neg Bool.false_ne_true] at h
                split at h
                · cases h
                · rename_i stR recsR brokeR hrefl
                  have hR := explorePhaseReflect_recs _ _ _ _ _ _ _ hrefl
                  cases brokeR with
                  | true =>
                    rw [if_pos rfl] at h
                    simp only [Except.ok.injEq, Prod.mk.injEq] at h
                    obtain ⟨_, _, h3⟩ := h
                    intro r hr
                    rw [← h3] at hr
                    rcases List.mem_append.mp hr with h12a | hR2
                    · rcases List.mem_append.mp h12a with h12 | hA2
                      · rcases List.mem_cons.mp h12 with rfl | h2
                        · exact Or.inl (make_screenshot_check_fields _ _ _ _).1
                        · have := List.mem_singleton.mp h2
                          subst this
                          exact Or.inl hvcw.1
                      · exact Or.inl (hA r hA2).1
                    · exact Or.inr (hR r hR2)
                  | false =>
                    rw [if_neg Bool.false_ne_true] at h
                    split at h
                    · cases h
                    · simp only [Except.ok.injEq, Prod.mk.injEq] at h
                      obtain ⟨_, _, h3⟩ := h
                      intro r hr
                      rw [← h3] at hr
                      rcases List.mem_append.mp hr with h12a | hR2
                      · rcases List.mem_append.mp h12a with h12 | hA2
                        · rcases List.mem_cons.mp h12 with rfl | h2
                          · exact Or.inl (make_screenshot_check_fields _ _ _ _).1
                          · have := List.mem_singleton.mp h2
                            subst this
                            exact Or.inl hvcw.1
                        · exact Or.inl (hA r hA2).1
                      · exact Or.inr (hR r hR2)
          · cases h

/-- Every record the whole exploration loop returns is weight-0.0 or a
    weight-free reflection record. -/
theorem exploreLoop_recs (cfg : Cfg) :
    ∀ (outs : List IterOutcome) (st fin : ExpSt) (recs : List JVal) (k : Nat),
      exploreLoop cfg outs st = .ok (fin, recs, k) →
      ∀ r ∈ recs, recWeightOk r := by
  intro outs
  induction outs with
  | nil =>
    intro st fin recs k h
    simp only [exploreLoop, Except.ok.injEq, Prod.mk.injEq] at h
    obtain ⟨_, h2, _⟩ := h
    intro r hr
    rw [← h2] at hr
    simp at hr
  | cons o rest ih =>
    intro st fin recs k h
    simp only [exploreLoop] at h
    split at h
    · cases h
    · rename_i st1 brokev recs1 heq
      have hi := exploreIter_recs _ _ _ _ _ _ heq
      cases brokev with
      | true =>
        rw [if_pos rfl] at h
        simp only [Except.ok.injEq, Prod.mk.injEq] at h
        obtain ⟨_, h2, _⟩ := h
        intro r hr
        rw [← h2] at hr
        exact hi r hr
      | false =>
        rw [if_neg Bool.false_ne_true] at h
        split at h
        · cases h
        · rename_i fin2 recs2 k2 heq2
          simp only [Except.ok.injEq, Prod.mk.injEq] at h
          obtain ⟨_, h2, _⟩ := h
          intro r hr
          rw [← h2] at hr
          rcases List.mem_append.mp hr with hr | hr
          · exact hi r hr
          · exact ih st1 _ _ _ heq2 r hr

/-- Membership in `allRecords`, stage by stage. -/
theorem mem_allRecords (sd : StepsData) (r : JVal) :
    r ∈ allRecords sd ↔ r ∈ sd.step0 ∨ r ∈ sd.step1 ∨ r ∈ sd.step2 := by
  simp [allRecords, List.mem_append, or_assoc]

/-- Weight-shape preservation under list append. -/
theorem recs_append_ok {l1 l2 : List JVal}
    (h1 : ∀ r ∈ l1, recWeightOk r) (h2 : ∀ r ∈ l2, recWeightOk r) :
    ∀ r ∈ l1 ++ l2, recWeightOk r := by
  intro r hr
  rcases List.mem_append.mp hr with hr | hr
  · exact h1 r hr
  · exact h2 r hr

/-- Weight shape of a one-record list. -/
theorem recs_singleton_ok {x : JVal} (h : recWeightOk x) :
    ∀ r ∈ [x], recWeightOk r := by
  intro r hr
  have := List.mem_singleton.mp hr
  subst this
  exact h

/-- Every record accumulated from the install step onward keeps the
    weight shape, given the preparation records before it do. -/
theorem process_from_install_recs (cfg : Cfg) (env : ProcEnv)
    (sd1 : StepsData) (calls1 : List Call)
    (res : JVal × List Call × StepsData)
    (hprev : ∀ r ∈ allRecords sd1, recWeightOk r)
    (h : process_from_install cfg env sd1 calls1 = .ok res) :
    ∀ r ∈ allRecords res.2.2, recWeightOk r := by
  have hp0 : ∀ r ∈ sd1.step0, recWeightOk r :=
    fun r hr => hprev r ((mem_allRecords _ _).mpr (Or.inl hr))
  have hp1 : ∀ r ∈ sd1.step1, recWeightOk r :=
    fun r hr => hprev r ((mem_allRecords _ _).mpr (Or.inr (Or.inl hr)))
  have hp2 : ∀ r ∈ sd1.step2, recWeightOk r :=
    fun r hr => hprev r ((mem_allRecords _ _).mpr (Or.inr (Or.inr hr)))
  have hone : ∀ (cid ag : List Char) (rr : RetryRes) (ex : List Char),
      recWeightOk (make_check_entry cid ag jzero rr ex) :=
    fun cid ag rr ex => Or.inl (make_check_entry_fields cid ag jzero rr ex).1
  simp only [process_from_install] at h
  split at h
  · simp only [Except.ok.injEq] at h
    subst h
    intro r hr
    rw [mem_allRecords] at hr
    rcases hr with h0 | h1 | h2
    · exact recs_append_ok hp0 (recs_singleton_ok (hone _ _ _ _)) r h0
    · exact hp1 r h1
    · exact hp2 r h2
  · split at h
    · simp only [Except.ok.injEq] at h
      subst h
      intro r hr
      rw [mem_allRecords] at hr
      rcases hr with h0 | h1 | h2
      · exact recs_append_ok hp0 (recs_singleton_ok (hone _ _ _ _)) r h0
      · exact recs_append_ok hp1 (recs_singleton_ok (hone _ _ _ _)) r h1
      · exact hp2 r h2
    · split at h
      · cases h
      · split at h
        · simp only [Except.ok.injEq] at h
          subst h
          intro r hr
          rw [mem_allRecords] at hr
          rcases hr with h0 | h1 | h2
          · exact recs_append_ok hp0 (recs_singleton_ok (hone _ _ _ _)) r h0
          · exact recs_append_ok
              (recs_append_ok hp1 (recs_singleton_ok (hone _ _ _ _)))
              (recs_singleton_ok
                (Or.inl (make_screenshot_check_fields _ _ _ _).1)) r h1
          · exact hp2 r h2
        · split at h
          · cases h
          · split at h
            · cases h
            · rename_i identCheck hident
              split at h
              · cases h
              · rename_i est recsv kv hloop
                split at h
                · cases h
                · simp only [Except.ok.injEq] at h
                  subst h
                  intro r hr
                  rw [mem_allRecords] at hr
                  rcases hr with h0 | h1 | h2
                  · exact recs_append_ok hp0
                      (recs_singleton_ok (hone _ _ _ _)) r h0
                  · exact recs_append_ok
                      (recs_append_ok
                        (recs_append_ok hp1 (recs_singleton_ok (hone _ _ _ _)))
                        (recs_singleton_ok
                          (Or.inl (make_screenshot_check_fields _ _ _ _).1)))
                      (recs_singleton_ok
                        (Or.inl (make_vision_check_fields _ _ _ _ _ hident).1))
                      r h1
                  · exact recs_append_ok hp2
                      (exploreLoop_recs _ _ _ _ _ _ hloop) r h2
                · simp only [Except.ok.injEq] at h
                  subst h
                  intro r hr
                  rw [mem_allRecords] at hr
                  rcases hr with h0 | h1 | h2
                  · exact recs_append_ok hp0
                      (recs_singleton_ok (hone _ _ _ _)) r h0
                  · exact recs_append_ok
                      (recs_append_ok
                        (recs_append_ok hp1 (recs_singleton_ok (hone _ _ _ _)))
                        (recs_singleton_ok
                          (Or.inl (make_screenshot_check_fields _ _ _ _).1)))
                      (recs_singleton_ok
                        (Or.inl (make_vision_check_fields _ _ _ _ _ hident).1))
                      r h1
                  · exact recs_append_ok hp2
                      (exploreLoop_recs _ _ _ _ _ _ hloop) r h2

/-- Every record a whole `process` run accumulates keeps the
    weight shape. -/
theorem process_recs (cfg : Cfg) (env : ProcEnv)
    (res : JVal × List Call × StepsData) (h : process cfg env = .ok res) :
    ∀ r ∈ allRecords res.2.2, recWeightOk r := by
  have hone : ∀ (cid ag : List Char) (rr : RetryRes) (ex : List Char),
      recWeightOk (make_check_entry cid ag jzero rr ex) :=
    fun cid ag rr ex => Or.inl (make_check_entry_fields cid ag jzero rr ex).1
  simp only [process] at h
  split at h
  · simp only [Except.ok.injEq] at h
    subst h
    intro r hr
    rw [mem_allRecords] at hr
    rcases hr with h0 | h1 | h2
    · have := List.mem_singleton.mp h0
      subst this
      exact hone _ _ _ _
    · simp at h1
    · simp at h2
  · split at h
    · split at h
      · simp only [Except.ok.injEq] at h
        subst h
        intro r hr
        rw [mem_allRecords] at hr
        rcases hr with h0 | h1 | h2
        · exact recs_append_ok (recs_singleton_ok (hone _ _ _ _))
            (recs_singleton_ok (hone _ _ _ _)) r h0
        · simp at h1
        · simp at h2
      · refine process_from_install_recs _ _ _ _ _ ?_ h
        intro r hr
        rw [mem_allRecords] at hr
        rcases hr with h0 | h1 | h2
        · exact recs_append_ok (recs_singleton_ok (hone _ _ _ _))
            (recs_singleton_ok (hone _ _ _ _)) r h0
        · simp at h1
        · simp at h2
    · refine process_from_install_recs _ _ _ _ _ ?_ h
      intro r hr
      rw [mem_allRecords] at hr
      rcases hr with h0 | h1 | h2
      · have := List.mem_singleton.mp h0
        subst this
        exact hone _ _ _ _
      · simp at h1
      · simp at h2

/-- A weight-shaped record contributes zero to the weight sum. -/
theorem recWeightOk_rat_zero (r : JVal) (h : recWeightOk r) :
    recWeightRat r = 0 := by
  unfold recWeightRat
  rcases h with h | h
  · simp only [h]
    simp [JNum.toRat, jzero]
  · simp only [h.1]

/-- C9 counterexample.  Reflection results are appended to the record list
    with *no* weight field at all (weight lookup `none`), not with weight
    0.0: in an iteration with a previous screenshot, the fourth appended
    record — the reflection record — has no weight. -/
theorem reflection_record_has_no_weight :
    (exploreIter cfgDefault oActFail ⟨1, 1, 1, true, []⟩).map
        (fun r => r.2.2.map (fun rec => jget rec (chars "weight")))
      = .ok [some (.num jzero), some (.num jzero), some (.num jzero), none] :=
  rfl

/-- C9 amended.  Every step record handed to aggregation either carries
    weight exactly 0.0 (all screenshot, vision, action, and preparation
    records) or — the reflection results — carries no weight field and no
    check id at all; consequently the total weight over all records is 0. -/
theorem record_weights_zero_or_absent (cfg : Cfg) (env : ProcEnv)
    (res : JVal × List Call × StepsData) (h : process cfg env = .ok res) :
    (∀ r ∈ allRecords res.2.2, recWeightOk r)
  ∧ ((allRecords res.2.2).map recWeightRat).sum = 0 := by
  have hmain := process_recs cfg env res h
  refine ⟨hmain, ?_⟩
  apply List.sum_eq_zero
  intro x hx
  rcases List.mem_map.mp hx with ⟨r, hr, hxr⟩
  rw [← hxr]
  exact recWeightOk_rat_zero r (hmain r hr)

/-- C9 witness: the amended theorem applied to the bad-oracle-free
    environment with no exploration iterations. -/
theorem record_weights_zero_or_absent_witness :
    ((allRecords (⟨[make_check_entry (chars "check_0_init_device")
        (chars "emulator_device_init") jzero .failed
        (chars "Initialize emulator device")], [], []⟩ : StepsData)).map
      recWeightRat).sum = 0 :=
  (record_weights_zero_or_absent cfgDefault
    { appIsLocal := false
      initAttempts := []
      uploadAttempts := []
      installAttempts := []
      runAttempts := []
      shot0 := .ok
      ident1 := .netErr
      ident2 := .netErr
      ident3 := .netErr
      iters := []
      agg1 := .netErr
      agg2 := .netErr
      agg3 := .netErr }
    (fail_no_analysis ⟨[make_check_entry (chars "check_0_init_device")
        (chars "emulator_device_init") jzero .failed
        (chars "Initialize emulator device")], [], []⟩,
      [Call.initDevice],
      ⟨[make_check_entry (chars "check_0_init_device")
        (chars "emulator_device_init") jzero .failed
        (chars "Initialize emulator device")], [], []⟩) rfl).2

/-- A retry result is failed exactly when it is the error dict. -/
theorem retryRes_isFailed_iff (r : RetryRes) :
    r.isFailed = true ↔ r = .failed := by
  cases r <;> simp [RetryRes.isFailed]

/-- From the install step onward, a failed install or run short-circuits
    into the conservative verdict, with only the install (and possibly
    run) calls added. -/
theorem process_from_install_fail (cfg : Cfg) (env : ProcEnv)
    (sd1 : StepsData) (calls1 : List Call)
    (hfail : (retry_call env.installAttempts 3).isFailed = true
           ∨ (retry_call env.runAttempts 2).isFailed = true) :
    ∃ sd calls, process_from_install cfg env sd1 calls1
        = .ok (fail_no_analysis sd, calls, sd)
      ∧ (calls = calls1 ++ [Call.installApp]
        ∨ calls = calls1 ++ [Call.installApp, Call.runApp]) := by
  simp only [process_from_install]
  by_cases hi : (retry_call env.installAttempts 3).isFailed
  · rw [if_pos hi]
    exact ⟨_, _, rfl, Or.inl rfl⟩
  · rw [if_neg hi]
    have hr : (retry_call env.runAttempts 2) = .failed := by
      rcases hfail with hf | hf
      · exact absurd hf hi
      · exact (retryRes_isFailed_iff _).mp hf
    rw [hr]
    refine ⟨_, _, rfl, Or.inr ?_⟩
    simp

/-- C4.  When `init_device` exhausts its retries the engine returns the
    conservative `{status: completed, result: {risk_level: high,
    confidence: 0.5}}` verdict whose reasons hold exactly the one
    preparation record accumulated, having made only the init call; and in
    general any preparation sub-step (init, upload, install, run)
    exhausting its retries yields the conservative verdict echoing the
    records so far, with no identification, exploration, or aggregation
    call made afterwards. -/
theorem prep_failure_short_circuits (cfg : Cfg) (env : ProcEnv) :
    ((retry_call env.initAttempts 3).isFailed = true →
      process cfg env = .ok (fail_no_analysis
          ⟨[make_check_entry (chars "check_0_init_device")
              (chars "emulator_device_init") jzero
              (retry_call env.initAttempts 3)
              (chars "Initialize emulator device")], [], []⟩,
        [Call.initDevice],
        ⟨[make_check_entry (chars "check_0_init_device")
            (chars "emulator_device_init") jzero
            (retry_call env.initAttempts 3)
            (chars "Initialize emulator device")], [], []⟩))
  ∧ (prepFailed env = true →
      ∃ sd calls, process cfg env = .ok (fail_no_analysis sd, calls, sd)
        ∧ Call.identVision ∉ calls ∧ Call.exploration ∉ calls
        ∧ Call.aggregation ∉ calls) := by
  constructor
  · intro hf
    simp only [process]
    rw [if_pos hf]
  · intro hp
    by_cases hi : (retry_call env.initAttempts 3).isFailed
    · refine ⟨⟨[make_check_entry (chars "check_0_init_device")
          (chars "emulator_device_init") jzero
          (retry_call env.initAttempts 3)
          (chars "Initialize emulator device")], [], []⟩,
        [Call.initDevice], ?_, by decide, by decide, by decide⟩
      simp only [process]
      rw [if_pos hi]
    · have hi' : (retry_call env.initAttempts 3).isFailed = false := by
        revert hi
        cases (retry_call env.initAttempts 3).isFailed <;> simp
      by_cases hl : env.appIsLocal
      · by_cases hu : (retry_call env.uploadAttempts 3).isFailed
        · refine ⟨⟨[make_check_entry (chars "check_0_init_device")
              (chars "emulator_device_init") jzero
              (retry_call env.initAttempts 3)
              (chars "Initialize emulator device"),
            make_check_entry (chars "check_0_upload_app")
              (chars "emulator_upload_app") jzero
              (retry_call env.uploadAttempts 3)
              (chars "Upload app apk")], [], []⟩,
            [Call.initDevice, Call.uploadApp],
            ?_, by decide, by decide, by decide⟩
          simp only [process]
          rw [if_neg hi, if_pos hl, if_pos hu]
          rfl
        · have hu' : (retry_call env.uploadAttempts 3).isFailed = false := by
            revert hu
            cases (retry_call env.uploadAttempts 3).isFailed <;> simp
          have hfail : (retry_call env.installAttempts 3).isFailed = true
              ∨ (retry_call env.runAttempts 2).isFailed = true := by
            unfold prepFailed at hp
            rw [hi', hu', hl] at hp
            simp only [Bool.false_or, Bool.and_true, Bool.true_and,
              Bool.and_false, Bool.or_false, Bool.false_and] at hp
            exact Bool.or_eq_true_iff.mp hp
          obtain ⟨sd, calls, heq, hc⟩ :=
            process_from_install_fail cfg env
              ⟨[make_check_entry (chars "check_0_init_device")
                  (chars "emulator_device_init") jzero
                  (retry_call env.initAttempts 3)
                  (chars "Initialize emulator device"),
                make_check_entry (chars "check_0_upload_app")
                  (chars "emulator_upload_app") jzero
                  (retry_call env.uploadAttempts 3)
                  (chars "Upload app apk")], [], []⟩
              ([Call.initDevice] ++ [Call.uploadApp]) hfail
          refine ⟨sd, calls, ?_, ?_, ?_, ?_⟩
          · simp only [process]
            rw [if_neg hi, if_pos hl, if_neg hu]
            exact heq
          · rcases hc with rfl | rfl <;> decide
          · rcases hc with rfl | rfl <;> decide
          · rcases hc with rfl | rfl <;> decide
      · have hfail : (retry_call env.installAttempts 3).isFailed = true
            ∨ (retry_call env.runAttempts 2).isFailed = true := by
          unfold prepFailed at hp
          have hl' : env.appIsLocal = false := by
            revert hl
            cases env.appIsLocal <;> simp
          rw [hi', hl'] at hp
          simp only [Bool.false_or, Bool.false_and] at hp
          exact Bool.or_eq_true_iff.mp hp
        obtain ⟨sd, calls, heq, hc⟩ :=
          process_from_install_fail cfg env
            ⟨[make_check_entry (chars "check_0_init_device")
                (chars "emulator_device_init") jzero
                (retry_call env.initAttempts 3)
                (chars "Initialize emulator device")], [], []⟩
            [Call.initDevice] hfail
        refine ⟨sd, calls, ?_, ?_, ?_, ?_⟩
        · simp only [process]
          rw [if_neg hi, if_neg hl]
          exact heq
        · rcases hc with rfl | rfl <;> decide
        · rcases hc with rfl | rfl <;> decide
        · rcases hc with rfl | rfl <;> decide

/-- C4 witness: a run whose init call never succeeds yields the minimal
    conservative verdict holding only the init record. -/
theorem prep_failure_short_circuits_witness :
    process cfgDefault
      { appIsLocal := false, initAttempts := [], uploadAttempts := [],
        installAttempts := [], runAttempts := [], shot0 := .ok,
        ident1 := .netErr, ident2 := .netErr, ident3 := .netErr,
        iters := [], agg1 := .netErr, agg2 := .netErr, agg3 := .netErr }
      = .ok (fail_no_analysis
          ⟨[make_check_entry (chars "check_0_init_device")
              (chars "emulator_device_init") jzero .failed
              (chars "Initialize emulator device")], [], []⟩,
        [Call.initDevice],
        ⟨[make_check_entry (chars "check_0_init_device")
            (chars "emulator_device_init") jzero .failed
            (chars "Initialize emulator device")], [], []⟩) :=
  (prep_failure_short_circuits cfgDefault
    { appIsLocal := false, initAttempts := [], uploadAttempts := [],
      installAttempts := [], runAttempts := [], shot0 := .ok,
      ident1 := .netErr, ident2 := .netErr, ident3 := .netErr,
      iters := [], agg1 := .netErr, agg2 := .netErr, agg3 := .netErr }).1 rfl

/-- C5 counterexample.  An oracle response that is bare valid JSON but not
    an object — the text `3` at the identification call — raises an
    uncaught `TypeError` inside `_strict_json_parse`'s required-key check,
    which escapes `process` to the caller instead of being absorbed into a
    completed verdict; the task input itself is valid. -/
theorem process_unhandled_typeerror_counterexample :
    exceptIsError (process cfgDefault envBad) = true
  ∧ validate_task (some (.str (chars "app.apk"))) = none :=
  ⟨rfl, rfl⟩

/-- A passed key check on a dict means every required key is present. -/
theorem missingKeys_find (fs : List (List Char × JVal)) :
    ∀ (keys : List (List Char)),
      missingKeys? (.obj fs) keys = some false →
      ∀ k ∈ keys, ∃ x, fs.find? (fun p => p.1 == k) = some x := by
  intro keys
  induction keys with
  | nil =>
    intro _ k hk
    simp at hk
  | cons k0 ks ih =>
    intro h k hk
    simp only [missingKeys?, pyNotIn] at h
    by_cases ha : fs.any (fun p => p.1 == k0)
    · rw [ha] at h
      simp only [Bool.not_true] at h
      rcases List.mem_cons.mp hk with rfl | hk2
      · rcases List.any_eq_true.mp ha with ⟨x, hx, hpx⟩
        have : (fs.find? (fun p => p.1 == k)).isSome :=
          List.find?_isSome.mpr ⟨x, hx, hpx⟩
        exact Option.isSome_iff_exists.mp this
      · exact ih h k hk2
    · have ha' : fs.any (fun p => p.1 == k0) = false := by
        revert ha
        cases fs.any (fun p => p.1 == k0) <;> simp
      rw [ha'] at h
      simp only [Bool.not_false] at h
      cases h

/-- Subscripting succeeds on a dict key that `jget` finds. -/
theorem pySubscript_of_jget (v : JVal) (k : List Char) (x : JVal)
    (h : jget v k = some x) : pySubscript v k = .ok x := by
  cases v with
  | obj fs =>
    simp only [jget] at h
    rcases hf : fs.find? (fun p => p.1 == k) with _ | y
    · rw [hf] at h; simp at h
    · rw [hf] at h
      simp only [Option.map_some'] at h
      injection h with h2
      simp only [pySubscript, hf, Option.map_some', h2]
  | null => simp [jget] at h
  | bool b => simp [jget] at h
  | num n => simp [jget] at h
  | str s => simp [jget] at h
  | arr xs => simp [jget] at h

/-- Required keys readable by `jget` on a dict that passed the key check. -/
theorem missingKeys_jget (v : JVal) (keys : List (List Char))
    (hobj : v.isObj = true) (h : missingKeys? v keys = some false) :
    ∀ k ∈ keys, ∃ x, jget v k = some x := by
  cases v with
  | obj fs =>
    intro k hk
    rcases missingKeys_find fs keys h k hk with ⟨x, hx⟩
    exact ⟨x.2, by simp only [jget, hx, Option.map_some']⟩
  | null => cases hobj
  | bool b => cases hobj
  | num n => cases hobj
  | str s => cases hobj
  | arr xs => cases hobj

/-- A successful strict parse implies the key check passed. -/
theorem strict_parse_completed_inv (raw : List Char)
    (keys : List (List Char)) (v : JVal)
    (h : strict_json_parse raw keys = .completed v) :
    missingKeys? v keys = some false := by
  unfold strict_json_parse at h
  repeat' split at h
  all_goals try cases h
  all_goals try (injection h with h2; subst h2)
  all_goals assumption

/-- `recStatusIs` evaluates on any record with a string status. -/
theorem recStatusIs_of_status (rec : JVal) (s which : List Char)
    (h : jget rec (chars "status") = some (.str s)) :
    recStatusIs rec which = .ok (s == which) := by
  unfold recStatusIs
  rw [pySubscript_of_jget _ _ _ h]

/-- A benign vision outcome never raises, and a parsed verdict is good. -/
theorem call_vision_benign (o : LLMOut) (h : benignVisionOut o = true) :
    ∃ r, call_vision_llm_for_json keysVision o = .ok r ∧ visResGood r := by
  cases o with
  | netErr => exact ⟨_, rfl, trivial⟩
  | badHttp => exact ⟨_, rfl, trivial⟩
  | notSuccess => exact ⟨_, rfl, trivial⟩
  | response raw =>
    simp only [benignVisionOut] at h
    simp only [call_vision_llm_for_json]
    rcases hp : strict_json_parse (pyStrip raw) keysVision with v | m | m
    · rw [hp] at h
      simp only [Bool.and_eq_true] at h
      obtain ⟨⟨hobj, hact⟩, hreas⟩ := h
      rcases hja : jget v (chars "action") with _ | av
      · rw [hja] at hact; cases hact
      · rw [hja] at hact
        cases av <;> simp only at hact
        all_goals try cases hact
        rename_i s
        rcases hjr : jget v (chars "reason") with _ | rv
        · rw [hjr] at hreas; cases hreas
        · rw [hjr] at hreas
          cases rv <;> simp only at hreas
          all_goals try cases hreas
          rename_i t
          exact ⟨.completed v, rfl,
            strict_parse_completed_inv _ _ _ hp, hobj,
            ⟨s, hja, hact⟩, ⟨t, hjr⟩⟩
    · exact ⟨.failed m, rfl, trivial⟩
    · rw [hp] at h; cases h

/-- Three benign vision attempts never raise, and the result is good. -/
theorem attempt_vision_benign (o1 o2 o3 : LLMOut)
    (h1 : benignVisionOut o1 = true) (h2 : benignVisionOut o2 = true)
    (h3 : benignVisionOut o3 = true) :
    ∃ r, attempt_vision_llm_for_json keysVision o1 o2 o3 = .ok r
      ∧ visResGood r := by
  obtain ⟨r1, hr1, hg1⟩ := call_vision_benign o1 h1
  obtain ⟨r2, hr2, hg2⟩ := call_vision_benign o2 h2
  obtain ⟨r3, hr3, hg3⟩ := call_vision_benign o3 h3
  simp only [attempt_vision_llm_for_json, hr1]
  cases r1 with
  | completed v => exact ⟨.completed v, rfl, hg1⟩
  | failed m1 =>
    simp only [hr2]
    cases r2 with
    | completed v => exact ⟨.completed v, rfl, hg2⟩
    | failed m2 =>
      simp only [hr3]
      cases r3 with
      | completed v => exact ⟨.completed v, rfl, hg3⟩
      | failed m3 => exact ⟨_, rfl, trivial⟩

/-- A benign identification outcome never raises, and a parsed verdict is
    a dict with its required keys. -/
theorem call_ident_benign (o : LLMOut) (h : benignIdentOut o = true) :
    ∃ r, call_vision_llm_for_json keysIdent o = .ok r ∧ identResGood r := by
  cases o with
  | netErr => exact ⟨_, rfl, trivial⟩
  | badHttp => exact ⟨_, rfl, trivial⟩
  | notSuccess => exact ⟨_, rfl, trivial⟩
  | response raw =>
    simp only [benignIdentOut] at h
    simp only [call_vision_llm_for_json]
    rcases hp : strict_json_parse (pyStrip raw) keysIdent with v | m | m
    · rw [hp] at h
      exact ⟨.completed v, rfl, strict_parse_completed_inv _ _ _ hp, h⟩
    · exact ⟨.failed m, rfl, trivial⟩
    · rw [hp] at h; cases h

/-- Three benign identification attempts never raise. -/
theorem attempt_ident_benign (o1 o2 o3 : LLMOut)
    (h1 : benignIdentOut o1 = true) (h2 : benignIdentOut o2 = true)
    (h3 : benignIdentOut o3 = true) :
    ∃ r, attempt_vision_llm_for_json keysIdent o1 o2 o3 = .ok r
      ∧ identResGood r := by
  obtain ⟨r1, hr1, hg1⟩ := call_ident_benign o1 h1
  obtain ⟨r2, hr2, hg2⟩ := call_ident_benign o2 h2
  obtain ⟨r3, hr3, hg3⟩ := call_ident_benign o3 h3
  simp only [attempt_vision_llm_for_json, hr1]
  cases r1 with
  | completed v => exact ⟨.completed v, rfl, hg1⟩
  | failed m1 =>
    simp only [hr2]
    cases r2 with
    | completed v => exact ⟨.completed v, rfl, hg2⟩
    | failed m2 =>
      simp only [hr3]
      cases r3 with
      | completed v => exact ⟨.completed v, rfl, hg3⟩
      | failed m3 => exact ⟨_, rfl, trivial⟩

/-- Building a vision check cannot raise when a completed verdict carries
    the three echoed fields. -/
theorem make_vision_check_ok (cid : List Char) (w : JNum) (r : VRes)
    (explan : List Char)
    (h : ∀ v, r = .completed v →
      (∃ a, jget v (chars "risk_level") = some a)
      ∧ (∃ b, jget v (chars "confidence") = some b)
      ∧ (∃ c, jget v (chars "reason") = some c)) :
    ∃ chk, make_vision_check cid w r explan = .ok chk := by
  cases r with
  | failed m => exact ⟨_, rfl⟩
  | completed v =>
    obtain ⟨⟨a, ha⟩, ⟨b, hb⟩, ⟨c, hc⟩⟩ := h v rfl
    simp only [make_vision_check, pySubscript_of_jget _ _ _ ha,
      pySubscript_of_jget _ _ _ hb, pySubscript_of_jget _ _ _ hc]
    exact ⟨_, rfl⟩

/-- Inserting one key leaves lookups of every other key unchanged. -/
theorem dictInsert_find_other (ki : List Char) (vi : JVal) (k : List Char)
    (hk : (ki == k) = false) :
    ∀ fs : List (List Char × JVal),
      List.find? (fun p => p.1 == k) (dictInsert fs ki vi)
        = List.find? (fun p => p.1 == k) fs := by
  intro fs
  induction fs with
  | nil =>
    simp only [dictInsert]
    rw [List.find?_cons_of_neg _ (by simp [hk]), List.find?_nil]
  | cons e rest ih =>
    obtain ⟨k2, v2⟩ := e
    simp only [dictInsert]
    by_cases h2 : (k2 == ki) = true
    · rw [if_pos h2]
      have hk2 : (k2 == k) = false := by rw [eq_of_beq h2]; exact hk
      rw [List.find?_cons_of_neg _ (by simp [hk2]),
          List.find?_cons_of_neg _ (by simp [hk2])]
    · rw [if_neg h2]
      by_cases h3 : (k2 == k) = true
      · rw [List.find?_cons_of_pos _ (by simp [h3]),
            List.find?_cons_of_pos _ (by simp [h3])]
      · rw [List.find?_cons_of_neg _ (by simp [h3]),
            List.find?_cons_of_neg _ (by simp [h3])]
        exact ih

/-- Inserting an absent key makes it findable with the inserted value. -/
theorem dictInsert_find_self (ki : List Char) (vi : JVal) :
    ∀ fs : List (List Char × JVal),
      List.find? (fun p => p.1 == ki) fs = none →
      List.find? (fun p => p.1 == ki) (dictInsert fs ki vi)
        = some (ki, vi) := by
  intro fs
  induction fs with
  | nil =>
    intro _
    simp only [dictInsert]
    rw [List.find?_cons_of_pos _ (by simp)]
  | cons e rest ih =>
    intro h
    obtain ⟨k2, v2⟩ := e
    by_cases h2 : (k2 == ki) = true
    · rw [List.find?_cons_of_pos _ (by simp [h2])] at h
      cases h
    · rw [List.find?_cons_of_neg _ (by simp [h2])] at h
      simp only [dictInsert]
      rw [if_neg h2, List.find?_cons_of_neg _ (by simp [h2])]
      exact ih h

/-- The insight-defaulting step leaves every other field unchanged. -/
theorem reflectFields_jget (fs0 : List (List Char × JVal)) (k : List Char)
    (hk : (chars "insight" == k) = false) :
    jget (.obj (reflectFields fs0)) k = jget (.obj fs0) k := by
  simp only [jget, reflectFields]
  by_cases h : (List.find? (fun p => p.1 == chars "insight") fs0).isSome = true
  · rw [if_pos h]
  · rw [if_neg h, dictInsert_find_other _ _ _ hk fs0]

/-- The insight field after defaulting: the default string when absent,
    the parsed value when present. -/
theorem reflectFields_insight (fs0 : List (List Char × JVal)) :
    (List.find? (fun p => p.1 == chars "insight") fs0 = none →
      jget (.obj (reflectFields fs0)) (chars "insight")
        = some (.str (chars "No new insight")))
  ∧ ∀ p, List.find? (fun p => p.1 == chars "insight") fs0 = some p →
      jget (.obj (reflectFields fs0)) (chars "insight") = some p.2 := by
  constructor
  · intro h
    simp only [jget, reflectFields, h, Option.isSome_none, Bool.false_eq_true,
      if_false]
    rw [dictInsert_find_self _ _ fs0 h]
    rfl
  · intro p h
    simp only [jget, reflectFields, h, Option.isSome_some, if_true]
    rfl

/-- A benign reflection outcome never raises: the produced record has a
    string status, and folding its insight into memory cannot raise. -/
theorem reflect_on_change_ok (o : LLMOut) (h : benignReflectOut o = true) :
    ∃ rrec b, reflect_on_change o = .ok rrec
      ∧ recStatusIs rrec (chars "error") = .ok b
      ∧ ∀ cfg st, ∃ st', applyReflectInsight cfg rrec st = .ok st' := by
  cases o with
  | netErr => exact ⟨_, true, rfl, rfl, fun cfg st => ⟨st, rfl⟩⟩
  | badHttp => exact ⟨_, true, rfl, rfl, fun cfg st => ⟨st, rfl⟩⟩
  | notSuccess => exact ⟨_, true, rfl, rfl, fun cfg st => ⟨st, rfl⟩⟩
  | response raw =>
    simp only [benignReflectOut] at h
    simp only [reflect_on_change, call_llm_for_json]
    rcases hp : strict_json_parse (pyStrip raw) keysReflect with v | m | m
    · rw [hp] at h
      have hmk := strict_parse_completed_inv _ _ _ hp
      cases v with
      | obj fs0 =>
        simp only [] at h
        have hjs := missingKeys_jget (JVal.obj fs0) keysReflect rfl hmk
        obtain ⟨rl, hrl⟩ := hjs (chars "risk_level") (by decide)
        obtain ⟨cf, hcf⟩ := hjs (chars "confidence") (by decide)
        obtain ⟨ex, hex⟩ := hjs (chars "explanation") (by decide)
        have hrl' : jget (JVal.obj (reflectFields fs0)) (chars "risk_level")
            = some rl := by
          rw [reflectFields_jget fs0 (chars "risk_level") rfl]; exact hrl
        have hcf' : jget (JVal.obj (reflectFields fs0)) (chars "confidence")
            = some cf := by
          rw [reflectFields_jget fs0 (chars "confidence") rfl]; exact hcf
        have hex' : jget (JVal.obj (reflectFields fs0)) (chars "explanation")
            = some ex := by
          rw [reflectFields_jget fs0 (chars "explanation") rfl]; exact hex
        have hins : ∃ s, jget (JVal.obj (reflectFields fs0)) (chars "insight")
            = some (.str s) := by
          rcases hfi : List.find? (fun p => p.1 == chars "insight") fs0
              with _ | p
          · exact ⟨_, (reflectFields_insight fs0).1 hfi⟩
          · rw [hfi] at h
            rcases p with ⟨pk, pv⟩
            cases pv <;> simp only [Option.map_some'] at h
            all_goals try cases h
            rename_i s
            exact ⟨s, (reflectFields_insight fs0).2 _ hfi⟩
        obtain ⟨s, hins'⟩ := hins
        simp only [pySubscript_of_jget _ _ _ hrl',
          pySubscript_of_jget _ _ _ hcf', pySubscript_of_jget _ _ _ hex',
          pySubscript_of_jget _ _ _ hins']
        exact ⟨_, false, rfl, rfl, fun cfg st => ⟨_, rfl⟩⟩
      | null => cases h
      | bool b => cases h
      | num n => cases h
      | str t => cases h
      | arr xs => cases h
    · exact ⟨_, true, rfl, rfl, fun cfg st => ⟨st, rfl⟩⟩
    · rw [hp] at h; cases h

/-- A dispatch-safe action string makes one action attempt return a record
    with a string status (never raise). -/
theorem perform_action_once_ok (t : List Char) (o : ActOut)
    (h : benignActionChars t = true) :
    ∃ r, perform_action_once t o = .ok r
      ∧ (∃ b, recStatusIs r (chars "error") = .ok b)
      ∧ (∃ c, recStatusIs r (chars "completed") = .ok c) := by
  simp only [benignActionChars] at h
  simp only [perform_action_once]
  by_cases h1 : ((chars "tap(").isPrefixOf (toLowerL (pyStrip t))) = true
  · rw [if_pos h1] at h ⊢
    rcases htc : tapCoords (pyStrip t) with _ | ⟨x, _ | ⟨y, _ | ⟨z, l⟩⟩⟩
    · exact ⟨_, rfl, ⟨_, rfl⟩, ⟨_, rfl⟩⟩
    · exact ⟨_, rfl, ⟨_, rfl⟩, ⟨_, rfl⟩⟩
    · rw [htc] at h
      simp only [Bool.and_eq_true, Option.isSome_iff_exists] at h
      obtain ⟨⟨ix, hix⟩, iy, hiy⟩ := h
      simp only [hix, hiy]
      cases o <;> exact ⟨_, rfl, ⟨_, rfl⟩, ⟨_, rfl⟩⟩
    · exact ⟨_, rfl, ⟨_, rfl⟩, ⟨_, rfl⟩⟩
  · rw [if_neg h1]
    by_cases h2 : ((chars "swipe(").isPrefixOf (toLowerL (pyStrip t))) = true
    · rw [if_pos h2]
      rcases hsw : swipeMatch? (pyStrip t) with _ | sw
      · exact ⟨_, rfl, ⟨_, rfl⟩, ⟨_, rfl⟩⟩
      · cases o <;> exact ⟨_, rfl, ⟨_, rfl⟩, ⟨_, rfl⟩⟩
    · rw [if_neg h2]
      by_cases h3 : toLowerL (pyStrip t) = chars "back"
      · rw [if_pos h3]
        cases o <;> exact ⟨_, rfl, ⟨_, rfl⟩, ⟨_, rfl⟩⟩
      · rw [if_neg h3]
        by_cases h4 : toLowerL (pyStrip t) = chars "home"
        · rw [if_pos h4]
          cases o <;> exact ⟨_, rfl, ⟨_, rfl⟩, ⟨_, rfl⟩⟩
        · rw [if_neg h4]
          by_cases h5 : toLowerL (pyStrip t) = chars "none"
          · rw [if_pos h5]; exact ⟨_, rfl, ⟨_, rfl⟩, ⟨_, rfl⟩⟩
          · rw [if_neg h5]; exact ⟨_, rfl, ⟨_, rfl⟩, ⟨_, rfl⟩⟩

/-- A dispatch-safe action string makes the two-attempt action call return
    a record with a string status (never raise). -/
theorem perform_action_with_retry_ok (t : List Char) (o1 o2 : ActOut)
    (h : benignActionChars t = true) :
    ∃ r b, perform_action_with_retry t o1 o2 = .ok r
      ∧ recStatusIs r (chars "error") = .ok b := by
  obtain ⟨r1, hr1, ⟨b1, hb1⟩, ⟨c1, hc1⟩⟩ := perform_action_once_ok t o1 h
  obtain ⟨r2, hr2, ⟨b2, hb2⟩, _⟩ := perform_action_once_ok t o2 h
  simp only [perform_action_with_retry, hr1, hc1]
  cases c1 with
  | false =>
    rw [if_neg Bool.false_ne_true]
    exact ⟨r2, b2, hr2, hb2⟩
  | true =>
    rw [if_pos rfl]
    exact ⟨r1, b1, rfl, hb1⟩

/-- The action phase of an iteration cannot raise on a dispatch-safe
    action string. -/
theorem explorePhaseAction_ok (cfg : Cfg) (performed : Bool)
    (action_str : List Char) (o1 o2 : ActOut) (st : ExpSt)
    (h : benignActionChars action_str = true) :
    ∃ out, explorePhaseAction cfg performed action_str o1 o2 st
      = .ok out := by
  cases performed with
  | false => exact ⟨_, rfl⟩
  | true =>
    obtain ⟨r, b, hr, hb⟩ := perform_action_with_retry_ok action_str o1 o2 h
    simp only [explorePhaseAction, Bool.not_true, hr, hb]
    cases b with
    | false =>
      rw [if_neg Bool.false_ne_true]
      exact ⟨_, rfl⟩
    | true =>
      rw [if_pos rfl]
      exact ⟨_, rfl⟩

/-- The reflection phase of an iteration cannot raise on a benign
    reflection outcome. -/
theorem explorePhaseReflect_ok (cfg : Cfg) (performed : Bool) (o : LLMOut)
    (st : ExpSt) (h : benignReflectOut o = true) :
    ∃ out, explorePhaseReflect cfg performed o st = .ok out := by
  simp only [explorePhaseReflect]
  by_cases h1 : (!cfg.reflection_enabled) = true
  · rw [if_pos h1]; exact ⟨_, rfl⟩
  · rw [if_neg h1]
    by_cases h2 : (st.has_prev_shot && performed) = true
    · rw [if_pos h2]
      obtain ⟨rrec, b, hre, hst, hins⟩ := reflect_on_change_ok o h
      simp only [hre, hst]
      cases b with
      | false =>
        rw [if_neg Bool.false_ne_true]
        obtain ⟨st'', hi⟩ := hins cfg (stageSuccess st)
        simp only [hi]
        exact ⟨_, rfl⟩
      | true =>
        rw [if_pos rfl]
        by_cases h3 : budgetExceeded cfg (stageError st) = true
        · rw [if_pos h3]; exact ⟨_, rfl⟩
        · rw [if_neg h3]; exact ⟨_, rfl⟩
    · rw [if_neg h2]; exact ⟨_, rfl⟩

/-- The vision-memory phase cannot raise when the verdict's reason is a
    string. -/
theorem explorePhaseMemory_ok (cfg : Cfg) (vr : JVal) (st : ExpSt)
    (h : ∃ t, jget vr (chars "reason") = some (.str t)) :
    ∃ st', explorePhaseMemory cfg vr st = .ok st' := by
  obtain ⟨t, ht⟩ := h
  simp only [explorePhaseMemory]
  by_cases h1 : (!cfg.memory_enabled) = true
  · rw [if_pos h1]; exact ⟨st, rfl⟩
  · rw [if_neg h1]
    simp only [pySubscript_of_jget _ _ _ ht, pyNotIn]
    cases containsSub t (chars "No suspicious") <;> exact ⟨_, rfl⟩

/-- One exploration iteration cannot raise on benign oracle outcomes. -/
theorem exploreIter_ok (cfg : Cfg) (o : IterOutcome) (st0 : ExpSt)
    (h : benignIter o = true) :
    ∃ out, exploreIter cfg o st0 = .ok out := by
  obtain ⟨shot, v1, v2, v3, a1, a2, rf⟩ := o
  simp only [benignIter, Bool.and_eq_true] at h
  obtain ⟨⟨⟨hv1, hv2⟩, hv3⟩, hrf⟩ := h
  simp only [exploreIter]
  cases shot with
  | netErr => exact ⟨_, rfl⟩
  | badHttp => exact ⟨_, rfl⟩
  | statusBad => exact ⟨_, rfl⟩
  | noData => exact ⟨_, rfl⟩
  | ok =>
    obtain ⟨vis, hvis, hgood⟩ := attempt_vision_benign v1 v2 v3 hv1 hv2 hv3
    simp only [hvis]
    have hmk : ∀ v, vis = .completed v →
        (∃ a, jget v (chars "risk_level") = some a)
        ∧ (∃ b, jget v (chars "confidence") = some b)
        ∧ (∃ c, jget v (chars "reason") = some c) := by
      intro v hv
      subst hv
      obtain ⟨hkeys, hobj, _, _⟩ := hgood
      have hjs := missingKeys_jget v keysVision hobj hkeys
      exact ⟨hjs _ (by decide), hjs _ (by decide), hjs _ (by decide)⟩
    obtain ⟨chk, hchk⟩ := make_vision_check_ok
      (chars "check_2_explore_vision_"
        ++ natChars ({ st0 with checks_count := st0.checks_count + 1 } :
          ExpSt).checks_count) jzero vis
      (chars "Exploration vision analysis #"
        ++ natChars ({ st0 with checks_count := st0.checks_count + 1 } :
          ExpSt).checks_count) hmk
    simp only [hchk]
    cases vis with
    | failed m => exact ⟨_, rfl⟩
    | completed vr =>
      obtain ⟨_, _, ⟨s, hja, hact⟩, ⟨t, hjr⟩⟩ := hgood
      simp only [pySubscript_of_jget _ _ _ hja]
      obtain ⟨⟨stA, recsA, brokeA⟩, hA⟩ := explorePhaseAction_ok cfg
        (!(toLowerL (pyStrip s) == chars "none")) (pyStrip s) a1 a2
        (stageSuccess (stageSuccess
          { st0 with checks_count := st0.checks_count + 1 })) hact
      simp only [hA]
      cases brokeA with
      | true =>
        rw [if_pos rfl]
        exact ⟨_, rfl⟩
      | false =>
        rw [if_neg Bool.false_ne_true]
        obtain ⟨⟨stR, recsR, brokeR⟩, hR⟩ := explorePhaseReflect_ok cfg
          (!(toLowerL (pyStrip s) == chars "none")) rf stA hrf
        simp only [hR]
        cases brokeR with
        | true =>
          rw [if_pos rfl]
          exact ⟨_, rfl⟩
        | false =>
          rw [if_neg Bool.false_ne_true]
          obtain ⟨stM, hM⟩ := explorePhaseMemory_ok cfg vr stR ⟨t, hjr⟩
          simp only [hM]
          exact ⟨_, rfl⟩

/-- The whole exploration loop cannot raise on benign oracle outcomes. -/
theorem exploreLoop_ok (cfg : Cfg) (iters : List IterOutcome)
    (h : iters.all benignIter = true) :
    ∀ st, ∃ out, exploreLoop cfg iters st = .ok out := by
  induction iters with
  | nil => exact fun st => ⟨_, rfl⟩
  | cons o rest ih =>
    intro st
    simp only [List.all_cons, Bool.and_eq_true] at h
    obtain ⟨ho, hrest⟩ := h
    obtain ⟨⟨st', broke, recs⟩, hit⟩ := exploreIter_ok cfg o st ho
    simp only [exploreLoop, hit]
    cases broke with
    | true =>
      rw [if_pos rfl]
      exact ⟨_, rfl⟩
    | false =>
      rw [if_neg Bool.false_ne_true]
      obtain ⟨⟨st'', recs', k⟩, hl⟩ := ih hrest st'
      simp only [hl]
      exact ⟨_, rfl⟩

/-- A benign aggregation outcome never raises. -/
theorem call_agg_benign (o : LLMOut) (h : benignAggOut o = true) :
    ∃ r, call_llm_for_json keysAgg o = .ok r := by
  cases o with
  | netErr => exact ⟨_, rfl⟩
  | badHttp => exact ⟨_, rfl⟩
  | notSuccess => exact ⟨_, rfl⟩
  | response raw =>
    simp only [benignAggOut] at h
    simp only [call_llm_for_json]
    rcases hp : strict_json_parse (pyStrip raw) keysAgg with v | m | m
    · exact ⟨_, rfl⟩
    · exact ⟨_, rfl⟩
    · rw [hp] at h; cases h

/-- Three benign aggregation attempts never raise. -/
theorem final_aggregate_ok (o1 o2 o3 : LLMOut)
    (h1 : benignAggOut o1 = true) (h2 : benignAggOut o2 = true)
    (h3 : benignAggOut o3 = true) :
    ∃ r, final_aggregate_with_retry o1 o2 o3 = .ok r := by
  obtain ⟨r1, hr1⟩ := call_agg_benign o1 h1
  obtain ⟨r2, hr2⟩ := call_agg_benign o2 h2
  obtain ⟨r3, hr3⟩ := call_agg_benign o3 h3
  simp only [final_aggregate_with_retry, hr1]
  cases r1 with
  | completed v => exact ⟨_, rfl⟩
  | failed m1 =>
    simp only [hr2]
    cases r2 with
    | completed v => exact ⟨_, rfl⟩
    | failed m2 =>
      simp only [hr3]
      cases r3 with
      | completed v => exact ⟨_, rfl⟩
      | failed m3 => exact ⟨_, rfl⟩

/-- From the install step onward, a benign environment always yields a
    `completed` response. -/
theorem process_from_install_completed (cfg : Cfg) (env : ProcEnv)
    (sd1 : StepsData) (calls1 : List Call)
    (hrun : benignRun env = true)
    (hi1 : benignIdentOut env.ident1 = true)
    (hi2 : benignIdentOut env.ident2 = true)
    (hi3 : benignIdentOut env.ident3 = true)
    (hit : env.iters.all benignIter = true)
    (ha1 : benignAggOut env.agg1 = true)
    (ha2 : benignAggOut env.agg2 = true)
    (ha3 : benignAggOut env.agg3 = true) :
    ∃ res calls sd, process_from_install cfg env sd1 calls1
        = .ok (res, calls, sd)
      ∧ jget res (chars "status") = some (.str (chars "completed")) := by
  simp only [process_from_install]
  by_cases hins : (retry_call env.installAttempts 3).isFailed = true
  · rw [if_pos hins]
    exact ⟨_, _, _, rfl, rfl⟩
  · rw [if_neg hins]
    rcases hrr : retry_call env.runAttempts 2 with runData | _
    rotate_left
    · exact ⟨_, _, _, rfl, rfl⟩
    · simp only [benignRun, hrr] at hrun
      rcases hj : jget runData (chars "task_id") with _ | x
      · rw [hj] at hrun; cases hrun
      · simp only [pySubscript_of_jget _ _ _ hj]
        rcases hsh : get_screenshot_for_task env.shot0 with _ | _
        · exact ⟨_, _, _, rfl, rfl⟩
        · obtain ⟨identRes, hid, hgood⟩ :=
            attempt_ident_benign _ _ _ hi1 hi2 hi3
          simp only [hid]
          have hmk : ∀ v, identRes = .completed v →
              (∃ a, jget v (chars "risk_level") = some a)
              ∧ (∃ b, jget v (chars "confidence") = some b)
              ∧ (∃ c, jget v (chars "reason") = some c) := by
            intro v hv
            subst hv
            obtain ⟨hkeys, hobj⟩ := hgood
            have hjs := missingKeys_jget v keysIdent hobj hkeys
            exact ⟨hjs _ (by decide), hjs _ (by decide), hjs _ (by decide)⟩
          obtain ⟨identCheck, hic⟩ := make_vision_check_ok
            (chars "check_1_ident_vision") jzero identRes
            (chars "Vision LLM app identify") hmk
          simp only [hic]
          obtain ⟨⟨est, recs, k⟩, hl⟩ := exploreLoop_ok cfg env.iters hit expInit
          simp only [hl]
          obtain ⟨ar, har⟩ := final_aggregate_ok _ _ _ ha1 ha2 ha3
          simp only [har]
          cases ar with
          | failed m => exact ⟨_, _, _, rfl, rfl⟩
          | completed v => exact ⟨_, _, _, rfl, rfl⟩

/-- C5 (amended).  For every configuration and every benign environment -
    device outcomes arbitrary, oracle responses that either fail benignly
    or parse to dicts with the shapes the worker dereferences (string
    `action` with dispatch-safe tap coordinates, string `reason`,
    string-or-absent `insight`, a run payload carrying `task_id`) -
    `process` returns `ok` with status `completed`.  The counterexample
    shows the unrestricted claim is false: a non-object oracle response
    such as bare `3` raises an uncaught `TypeError` that reaches the
    caller. -/
theorem process_completed_on_benign (cfg : Cfg) (env : ProcEnv)
    (h : benignEnv env = true) :
    ∃ res calls sd, process cfg env = .ok (res, calls, sd)
      ∧ jget res (chars "status") = some (.str (chars "completed")) := by
  simp only [benignEnv, Bool.and_eq_true] at h
  obtain ⟨⟨⟨⟨⟨⟨⟨hrun, hi1⟩, hi2⟩, hi3⟩, hit⟩, ha1⟩, ha2⟩, ha3⟩ := h
  simp only [process]
  by_cases hinit : (retry_call env.initAttempts 3).isFailed = true
  · rw [if_pos hinit]
    exact ⟨_, _, _, rfl, rfl⟩
  · rw [if_neg hinit]
    by_cases hl : env.appIsLocal = true
    · rw [if_pos hl]
      by_cases hup : (retry_call env.uploadAttempts 3).isFailed = true
      · rw [if_pos hup]
        exact ⟨_, _, _, rfl, rfl⟩
      · rw [if_neg hup]
        exact process_from_install_completed cfg env _ _ hrun hi1 hi2 hi3
          hit ha1 ha2 ha3
    · rw [if_neg hl]
      exact process_from_install_completed cfg env _ _ hrun hi1 hi2 hi3
        hit ha1 ha2 ha3

/-- Witness for C5 (amended): a concrete benign environment on which
    `process` provably completes. -/
theorem process_completed_on_benign_witness :
    benignEnv envGood = true
  ∧ ∃ res calls sd, process cfgDefault envGood = .ok (res, calls, sd)
      ∧ jget res (chars "status") = some (.str (chars "completed")) :=
  ⟨rfl, process_completed_on_benign cfgDefault envGood rfl⟩
